import Mathlib

/-!
# VirtualMart: the catalogue filter / sort / render pipeline of `js/mart.js`

A shallow embedding of the script and of the part of the ECMAScript runtime it
relies on, followed by theorems about the embedded functions.

Conventions of the embedding.

* A script string is a list of characters (`JSString`).  Lone surrogates are
  not represented.
* A script number (`JSNum`) is `NaN`, an infinity, or a finite value held as an
  integer count of the smallest positive double `2^-1074`; every finite double
  is such a count.  Arithmetic rounds to 53 significant bits, ties to even.
  Negative zero is identified with zero.
* Facilities whose result is fixed by Unicode or locale tables, or is left to
  the implementation by the standard, are fields of `Host`; among them the
  order of `Array.prototype.sort` under a comparator that is not consistent
  (one that returns `NaN`).
* The arrays held by `vehicles` and `currentList` live in a store and are
  named by references, so that copying and in-place sorting are distinguished.
-/

namespace VirtualMart

/-! ## Strings -/

/-- Script strings. -/
abbrev JSString := List Char

/-- Characters removed by `String.prototype.trim` and skipped by the numeric
string grammar: ECMAScript `WhiteSpace` and `LineTerminator`. -/
def isStrWhiteSpace (c : Char) : Bool :=
  let n := c.toNat
  n = 0x09 || n = 0x0A || n = 0x0B || n = 0x0C || n = 0x0D || n = 0x20 ||
  n = 0xA0 || n = 0x1680 || (0x2000 ≤ n && n ≤ 0x200A) || n = 0x2028 ||
  n = 0x2029 || n = 0x202F || n = 0x205F || n = 0x3000 || n = 0xFEFF

/-- Drops trailing white space. -/
def trimEnd : JSString → JSString
  | [] => []
  | c :: cs =>
    match trimEnd cs with
    | [] => if isStrWhiteSpace c then [] else [c]
    | r => c :: r

/-- The method `String.prototype.trim`. -/
def trim (s : JSString) : JSString :=
  trimEnd (s.dropWhile isStrWhiteSpace)

/-- Whether `t` starts `s`. -/
def startsWith : JSString → JSString → Bool
  | _, [] => true
  | [], _ :: _ => false
  | c :: s, d :: t => c = d && startsWith s t

/-- The method `String.prototype.includes`: `t` occurs in `s`. -/
def includes : JSString → JSString → Bool
  | [], t => startsWith [] t
  | c :: s, t => startsWith (c :: s) t || includes s t

/-- A global replacement of one character by a fixed text, as done by
`replace(/c/g, "text")` when the text has no `$`. -/
def replaceAll (c : Char) (by_ : JSString) : JSString → JSString
  | [] => []
  | d :: s => if d = c then by_ ++ replaceAll c by_ s else d :: replaceAll c by_ s

/-! ## Numbers -/

/-- Script numbers.  `fin k` is the finite value `k * 2^-1074`. -/
inductive JSNum
  | nan
  | posInf
  | negInf
  | fin (k : Int)
  deriving DecidableEq, Repr

namespace JSNum

/-- The number of `2^-1074` steps in `1`. -/
def one : Nat := 2 ^ 1074

/-- The first count that is beyond every finite double. -/
def overflow : Nat := 2 ^ 2098

/-- Some `j` with `n < 2^(2^j)`, found by doubling; the first argument bounds
the number of steps and is never exhausted when it is `n`. -/
def bitBound : Nat → Nat → Nat → Nat
  | 0, j, _ => j
  | f + 1, j, n => if n < 2 ^ (2 ^ j) then j else bitBound f (j + 1) n

/-- Binary search for the position of the leading bit of `n`, adding the bits
`2^(i-1)`, ..., `2^0` to `acc` when the power stays at most `n`. -/
def log2Search : Nat → Nat → Nat → Nat
  | 0, acc, _ => acc
  | i + 1, acc, n =>
    if 2 ^ (acc + 2 ^ i) ≤ n then log2Search i (acc + 2 ^ i) n else log2Search i acc n

/-- The position of the leading bit: `⌊log₂ n⌋`, and `0` for `n = 0`. -/
def floorLog2 (n : Nat) : Nat :=
  log2Search (bitBound n 0 n) 0 n

/-- Rounds `num / den` (a count of `2^-1074` steps) to 53 significant bits,
ties to even. -/
def roundRatio (num den : Nat) : Nat :=
  let s := floorLog2 (num / den) - 52
  let d := den * 2 ^ s
  let q := num / d
  let r := num % d
  let q' := if d < 2 * r ∨ (2 * r = d ∧ q % 2 = 1) then q + 1 else q
  q' * 2 ^ s

/-- The double nearest to `± num / den` steps. -/
def ofRatio (neg : Bool) (num den : Nat) : JSNum :=
  let k := roundRatio num den
  if overflow ≤ k then (if neg then negInf else posInf)
  else fin (if neg then -(k : Int) else (k : Int))

/-- The double nearest to an exact count of steps. -/
def ofSteps (k : Int) : JSNum :=
  ofRatio (decide (k < 0)) k.natAbs 1

/-- The double of a natural number. -/
def ofNat (n : Nat) : JSNum := ofSteps ((n * one : Nat) : Int)

/-- The double nearest to the decimal `d * 10^p`. -/
def ofDecimal (neg : Bool) (d : Nat) (p : Int) : JSNum :=
  match p with
  | Int.ofNat e => ofRatio neg (d * 10 ^ e * one) 1
  | Int.negSucc e => ofRatio neg (d * one) (10 ^ (e + 1))

/-- The test `isNaN`. -/
def isNaN : JSNum → Bool
  | nan => true
  | _ => false

/-- Subtraction `a - b`. -/
def sub : JSNum → JSNum → JSNum
  | nan, _ => nan
  | _, nan => nan
  | posInf, posInf => nan
  | negInf, negInf => nan
  | posInf, _ => posInf
  | negInf, _ => negInf
  | fin _, posInf => negInf
  | fin _, negInf => posInf
  | fin a, fin b => ofSteps (a - b)

/-- The function `Math.abs`. -/
def abs : JSNum → JSNum
  | nan => nan
  | posInf => posInf
  | negInf => posInf
  | fin k => fin (k.natAbs : Int)

/-- The comparison `a < b`; false when either side is `NaN`. -/
def lt : JSNum → JSNum → Bool
  | nan, _ => false
  | _, nan => false
  | posInf, _ => false
  | _, posInf => true
  | negInf, negInf => false
  | negInf, fin _ => true
  | fin _, negInf => false
  | fin a, fin b => decide (a < b)

/-- The comparison `a >= b`; false when either side is `NaN`. -/
def ge (a b : JSNum) : Bool :=
  !isNaN a && !isNaN b && !lt a b

/-- The comparison `a <= b`; false when either side is `NaN`. -/
def le (a b : JSNum) : Bool :=
  !isNaN a && !isNaN b && !lt b a

/-- Strict equality `a === b` of two numbers. -/
def strictEq : JSNum → JSNum → Bool
  | nan, _ => false
  | _, nan => false
  | a, b => decide (a = b)

/-- Whether the number converts to `false`: zero and `NaN`. -/
def isFalsy : JSNum → Bool
  | nan => true
  | fin k => decide (k = 0)
  | _ => false

/-! ### Text to number: the `StringToNumber` grammar -/

/-- The value of a digit in the given base, letters in either case. -/
def digitInBase (base : Nat) (c : Char) : Option Nat :=
  let n := c.toNat
  let v : Option Nat :=
    if 48 ≤ n ∧ n ≤ 57 then some (n - 48)
    else if 97 ≤ n ∧ n ≤ 122 then some (n - 87)
    else if 65 ≤ n ∧ n ≤ 90 then some (n - 55)
    else none
  match v with
  | some d => if d < base then some d else none
  | none => none

/-- The value of a run of digits, most significant first; `acc` holds the
value read so far.  Fails on a character that is not a digit of the base. -/
def readDigits (base : Nat) (acc : Nat) : JSString → Option Nat
  | [] => some acc
  | c :: s =>
    match digitInBase base c with
    | some d => readDigits base (acc * base + d) s
    | none => none

/-- A non-empty run of digits. -/
def readDigits1 (base : Nat) (s : JSString) : Option Nat :=
  if s = [] then none else readDigits base 0 s

/-- The exponent that follows `e` or `E`: an optional sign and digits. -/
def parseExponent : JSString → Option Int
  | '+' :: ds => (readDigits1 10 ds).map Int.ofNat
  | '-' :: ds => (readDigits1 10 ds).map (fun n => -(Int.ofNat n))
  | ds => (readDigits1 10 ds).map Int.ofNat

/-- `StrUnsignedDecimalLiteral`: `Infinity`, or digits with an optional
fraction and an optional exponent; anything else is `NaN`. -/
def parseUnsignedDecimal (neg : Bool) (s : JSString) : JSNum :=
  if s = "Infinity".toList then (if neg then negInf else posInf)
  else
    let notE : Char → Bool := fun c => c != 'e' && c != 'E'
    let mant := s.takeWhile notE
    let rest := s.dropWhile notE
    let ip := mant.takeWhile (fun c => c != '.')
    let fp := (mant.dropWhile (fun c => c != '.')).drop 1
    if ip = [] ∧ fp = [] then nan
    else
      match readDigits 10 0 (ip ++ fp),
          (if rest = [] then some 0 else parseExponent (rest.drop 1)) with
      | some d, some e => ofDecimal neg d (e - (fp.length : Int))
      | _, _ => nan

/-- An integer literal in base 2, 8 or 16, after its `0b`, `0o` or `0x`. -/
def parseNonDecimal (base : Nat) (ds : JSString) : JSNum :=
  match readDigits1 base ds with
  | some n => ofNat n
  | none => nan

/-- The conversion `Number(s)` of a string: `StringToNumber`. -/
def ofString (s : JSString) : JSNum :=
  match trim s with
  | [] => fin 0
  | '0' :: 'x' :: ds => parseNonDecimal 16 ds
  | '0' :: 'X' :: ds => parseNonDecimal 16 ds
  | '0' :: 'o' :: ds => parseNonDecimal 8 ds
  | '0' :: 'O' :: ds => parseNonDecimal 8 ds
  | '0' :: 'b' :: ds => parseNonDecimal 2 ds
  | '0' :: 'B' :: ds => parseNonDecimal 2 ds
  | '+' :: r => parseUnsignedDecimal false r
  | '-' :: r => parseUnsignedDecimal true r
  | r => parseUnsignedDecimal false r

/-! ### Number to text: `Number::toString` in radix 10 -/

/-- Whether `k * 2^-1074 < 10^n`. -/
def belowPow10 (k : Nat) (n : Int) : Bool :=
  match n with
  | Int.ofNat a => decide (k < 10 ^ a * one)
  | Int.negSucc a => decide (k * 10 ^ (a + 1) < one)

/-- The least `n` from the given start with `k * 2^-1074 < 10^n`. -/
def pow10Search : Nat → Int → Nat → Int
  | 0, n, _ => n
  | f + 1, n, k => if belowPow10 k n then n else pow10Search f (n + 1) k

/-- The `n` with `10^(n-1) ≤ k * 2^-1074 < 10^n`, for `k > 0`. -/
def decimalExponent (k : Nat) : Int :=
  pow10Search (k + 700) (-324) k

/-- The `len`-digit integer `s` for which `s * 10^(n0 - len)` is nearest to
`k * 2^-1074` (the even one of two), and whether that decimal reads back as
`k`. -/
def digitCandidate (k : Nat) (n0 : Int) (len : Nat) : Nat × Bool :=
  let e := n0 - (len : Int)
  let num := match e with
    | Int.ofNat _ => k
    | Int.negSucc a => k * 10 ^ (a + 1)
  let den := match e with
    | Int.ofNat a => 10 ^ a * one
    | Int.negSucc _ => one
  let lo := num / den
  let r := num % den
  let okLo := decide (ofDecimal false lo e = fin k)
  let okHi := decide (ofDecimal false (lo + 1) e = fin k)
  let preferHi := decide (den < 2 * r ∨ (2 * r = den ∧ lo % 2 = 1))
  if okLo && okHi then (if preferHi then lo + 1 else lo, true)
  else if okLo then (lo, true)
  else if okHi then (lo + 1, true)
  else (if preferHi then lo + 1 else lo, false)

/-- The shortest digit string that reads back as `k`, tried for the lengths
`len`, `len + 1`, ... up to 17, with the decimal exponent `n`. -/
def shortestDigits (k : Nat) (n0 : Int) : Nat → Nat → JSString × Int
  | 0, len => (Nat.toDigits 10 (digitCandidate k n0 len).1, n0)
  | f + 1, len =>
    let c := digitCandidate k n0 len
    if c.2 || len ≥ 17 then
      (if c.1 = 10 ^ len then ((Nat.toDigits 10 c.1).dropLast, n0 + 1)
       else (Nat.toDigits 10 c.1, n0))
    else shortestDigits k n0 f (len + 1)

/-- The text of a positive finite number. -/
def positiveToString (k : Nat) : JSString :=
  let dn := shortestDigits k (decimalExponent k) 17 1
  let ds := dn.1
  let n := dn.2
  let len : Int := ds.length
  if len ≤ n ∧ n ≤ 21 then ds ++ List.replicate (n - len).toNat '0'
  else if 0 < n ∧ n ≤ 21 then ds.take n.toNat ++ '.' :: ds.drop n.toNat
  else if -6 < n ∧ n ≤ 0 then '0' :: '.' :: List.replicate (-n).toNat '0' ++ ds
  else
    let e := n - 1
    let es := (if e < 0 then '-' else '+') :: Nat.toDigits 10 e.natAbs
    if ds.length = 1 then ds ++ 'e' :: es
    else ds.take 1 ++ '.' :: ds.drop 1 ++ 'e' :: es

/-- The conversion of a number to text, `Number::toString`. -/
def toString : JSNum → JSString
  | nan => "NaN".toList
  | posInf => "Infinity".toList
  | negInf => "-Infinity".toList
  | fin k =>
    if k = 0 then "0".toList
    else if k < 0 then '-' :: positiveToString k.natAbs
    else positiveToString k.natAbs

end JSNum

/-! ## Values -/

/-- The values a record field can hold after `res.json()`, and `undefined`
for a field that is missing. -/
inductive JSVal
  | undefined
  | null
  | bool (b : Bool)
  | num (x : JSNum)
  | str (s : JSString)
  deriving DecidableEq, Repr

namespace JSVal

/-- The conversion `ToBoolean`. -/
def truthy : JSVal → Bool
  | undefined => false
  | null => false
  | bool b => b
  | num x => !x.isFalsy
  | str s => !s.isEmpty

/-- The test `v == null`. -/
def isNullish : JSVal → Bool
  | undefined => true
  | null => true
  | _ => false

/-- The conversion `ToString`, used by `String(v)`, template literals,
string concatenation and `v.toString()`. -/
def toStr : JSVal → JSString
  | undefined => "undefined".toList
  | null => "null".toList
  | bool true => "true".toList
  | bool false => "false".toList
  | num x => x.toString
  | str s => s

/-- The conversion `Number(v)`. -/
def toNumber : JSVal → JSNum
  | undefined => JSNum.nan
  | null => JSNum.fin 0
  | bool true => JSNum.ofNat 1
  | bool false => JSNum.fin 0
  | num x => x
  | str s => JSNum.ofString s

/-- The expression `a || b`. -/
def or (a b : JSVal) : JSVal :=
  if a.truthy then a else b

/-- The test `typeof v === "number"`. -/
def isNumber : JSVal → Bool
  | num _ => true
  | _ => false

end JSVal

/-! ## Records -/

/-- A vehicle record.  A missing field is `undefined`; `images` is `none`
when the field is missing or is not an array. -/
structure Vehicle where
  id : JSVal := JSVal.undefined
  make : JSVal := JSVal.undefined
  model : JSVal := JSVal.undefined
  year : JSVal := JSVal.undefined
  engineSize : JSVal := JSVal.undefined
  transmission : JSVal := JSVal.undefined
  color : JSVal := JSVal.undefined
  price : JSVal := JSVal.undefined
  dateAdded : JSVal := JSVal.undefined
  modelCode : JSVal := JSVal.undefined
  images : Option (List JSVal) := none
  deriving DecidableEq, Repr

/-! ## Sort orders -/

/-- The comparator puts `a` before `b`: its result is negative. -/
def sortBefore {α : Type} (cmp : α → α → JSNum) (a b : α) : Bool :=
  JSNum.lt (cmp a b) (JSNum.fin 0)

/-- The comparator puts `a` after `b`: its result is positive. -/
def sortAfter {α : Type} (cmp : α → α → JSNum) (a b : α) : Bool :=
  JSNum.lt (JSNum.fin 0) (cmp a b)

/-- The comparator ranks `a` and `b` equal: its result is zero, or `NaN`,
which `Array.prototype.sort` reads as zero. -/
def sortSame {α : Type} (cmp : α → α → JSNum) (a b : α) : Bool :=
  !sortBefore cmp a b && !sortAfter cmp a b

/-- The comparator is a consistent comparator, in the words of the standard,
for the elements of the list. -/
def isConsistent {α : Type} (cmp : α → α → JSNum) (l : List α) : Bool :=
  l.all fun a =>
    sortSame cmp a a &&
    l.all fun b =>
      (!sortSame cmp a b || sortSame cmp b a) &&
      l.all fun c =>
        (!(sortSame cmp a b && sortSame cmp b c) || sortSame cmp a c) &&
        (!(sortBefore cmp a b && sortBefore cmp b c) || sortBefore cmp a c) &&
        (!(sortAfter cmp a b && sortAfter cmp b c) || sortAfter cmp a c)

/-! ### Stable insertion, the order of a consistent comparator -/

/-- Puts `x` in front of the first element it does not have to follow
according to the comparator (a positive result means `x` follows `y`; `NaN`
counts as zero). -/
def insertSorted {α : Type} (cmp : α → α → JSNum) (x : α) : List α → List α
  | [] => [x]
  | y :: ys =>
    if JSNum.lt (JSNum.fin 0) (cmp x y) then y :: insertSorted cmp x ys else x :: y :: ys

/-- The sorted and stable order, which the standard fixes as the result of
`Array.prototype.sort` when the comparator is consistent: stable insertion
by the comparator. -/
def arraySort {α : Type} (cmp : α → α → JSNum) : List α → List α
  | [] => []
  | x :: xs => insertSorted cmp x (arraySort cmp xs)

/-! ### Binary insertion, the order of V8 on short arrays -/

/-- The number of elements after `prev` that continue the run which the
first two elements start: descending while each is before its predecessor,
ascending while none is. -/
def runTail {α : Type} (cmp : α → α → JSNum) (desc : Bool) (prev : α) : List α → Nat
  | [] => 0
  | cur :: rest =>
    if sortBefore cmp cur prev = desc then 1 + runTail cmp desc cur rest else 0

/-- The binary search of the insertion point of `pivot` in `sorted` between
`left` and `right`; the first argument bounds the number of steps. -/
def searchPos {α : Type} (cmp : α → α → JSNum) (pivot : α) (sorted : List α) :
    Nat → Nat → Nat → Nat
  | 0, left, _ => left
  | fuel + 1, left, right =>
    if left < right then
      let mid := left + (right - left) / 2
      if sortBefore cmp pivot (sorted.getD mid pivot) then searchPos cmp pivot sorted fuel left mid
      else searchPos cmp pivot sorted fuel (mid + 1) right
    else left

/-- Inserts each element of the second list in turn, at its insertion point,
into the first. -/
def binaryInsertAll {α : Type} (cmp : α → α → JSNum) : List α → List α → List α
  | sorted, [] => sorted
  | sorted, pivot :: rest =>
    let pos := searchPos cmp pivot sorted (sorted.length + 1) 0 sorted.length
    binaryInsertAll cmp (sorted.take pos ++ pivot :: sorted.drop pos) rest

/-- The sort of V8 for an array of fewer than 64 elements: the leading run is
found (and reversed when descending) and the other elements are put in by
binary insertion. -/
def binaryInsertionSort {α : Type} (cmp : α → α → JSNum) (l : List α) : List α :=
  match l with
  | a0 :: a1 :: rest =>
    let desc := sortBefore cmp a1 a0
    let n := 2 + runTail cmp desc a1 rest
    let run := if desc then (l.take n).reverse else l.take n
    binaryInsertAll cmp run (l.drop n)
  | _ => l

/-! ### Bottom-up merge sort -/

/-- The stable merge of two lists: the head of the second goes first only
when the head of the first is after it.  The first argument bounds the
number of steps. -/
def mergeRuns {α : Type} (cmp : α → α → JSNum) : Nat → List α → List α → List α
  | 0, a, b => a ++ b
  | _ + 1, [], b => b
  | _ + 1, a, [] => a
  | fuel + 1, x :: xs, y :: ys =>
    if sortAfter cmp x y then y :: mergeRuns cmp fuel (x :: xs) ys
    else x :: mergeRuns cmp fuel xs (y :: ys)

/-- Merges the runs two by two. -/
def mergePairs {α : Type} (cmp : α → α → JSNum) : List (List α) → List (List α)
  | a :: b :: rest => mergeRuns cmp (a.length + b.length) a b :: mergePairs cmp rest
  | runs => runs

/-- Merges the runs two by two until one is left; the first argument bounds
the number of rounds. -/
def mergeAll {α : Type} (cmp : α → α → JSNum) : Nat → List (List α) → List α
  | 0, runs => runs.flatten
  | _ + 1, [] => []
  | _ + 1, [r] => r
  | fuel + 1, runs => mergeAll cmp fuel (mergePairs cmp runs)

/-- A stable bottom-up merge sort, starting from runs of one element. -/
def mergeSortBottomUp {α : Type} (cmp : α → α → JSNum) (l : List α) : List α :=
  mergeAll cmp l.length (l.map fun x => [x])

/-! ## Host facilities -/

/-- Lower-casing of the letters `A`-`Z`. -/
def asciiLower (c : Char) : Char :=
  if 65 ≤ c.toNat ∧ c.toNat ≤ 90 then Char.ofNat (c.toNat + 32) else c

/-- What the embedding takes from the host: the Unicode lower-casing of a
string, the parsing of date strings outside the ISO format, the locale
rendering of a number, and the order `Array.prototype.sort` gives an array
when the comparator is not consistent, which the standard leaves to the
implementation.  On a string of ASCII characters lower-casing is the ASCII
table; the sort rearranges the elements it is given. -/
structure Host where
  /-- The method `String.prototype.toLowerCase`. -/
  toLowerCase : JSString → JSString
  /-- ASCII strings are lower-cased letter by letter. -/
  toLowerCase_ascii : ∀ s : JSString, (∀ c ∈ s, c.toNat < 128) →
    toLowerCase s = s.map asciiLower
  /-- The result of `Date.parse` on a string that the embedding does not read
  as ISO format: a time value, or `none` for an invalid date. -/
  dateParseOther : JSString → Option Int
  /-- The method `Number.prototype.toLocaleString`. -/
  toLocaleString : JSNum → JSString
  /-- The result of `Array.prototype.sort` when the comparator is not
  consistent for the elements of the array. -/
  sortInconsistent : (Vehicle → Vehicle → JSNum) → List Vehicle → List Vehicle
  /-- The sort rearranges the elements. -/
  sortInconsistent_perm : ∀ (cmp : Vehicle → Vehicle → JSNum) (l : List Vehicle),
    (sortInconsistent cmp l).Perm l

/-- A host that lower-cases only the ASCII letters, reads no date outside the
ISO format, renders numbers as `toString` does, and sorts under an
inconsistent comparator as V8 sorts short arrays, by binary insertion. -/
def asciiHost : Host where
  toLowerCase := fun s => s.map asciiLower
  toLowerCase_ascii := fun _ _ => rfl
  dateParseOther := fun _ => none
  toLocaleString := JSNum.toString
  sortInconsistent := binaryInsertionSort
  sortInconsistent_perm := by
    intro cmp l
    have hins : ∀ rest sorted : List Vehicle,
        (binaryInsertAll cmp sorted rest).Perm (sorted ++ rest) := by
      intro rest
      induction rest with
      | nil => intro sorted; simp [binaryInsertAll]
      | cons pivot rest ih =>
        intro sorted
        refine (ih _).trans ?_
        refine List.Perm.trans ?_ List.perm_middle.symm
        have hmid : (sorted.take (searchPos cmp pivot sorted (sorted.length + 1) 0 sorted.length)
            ++ pivot :: sorted.drop (searchPos cmp pivot sorted (sorted.length + 1) 0
              sorted.length)).Perm (pivot :: sorted) := by
          refine List.perm_middle.trans ?_
          rw [List.take_append_drop]
        exact List.Perm.append_right rest hmid
    match l with
    | [] => exact List.Perm.refl _
    | [_] => exact List.Perm.refl _
    | a0 :: a1 :: rest =>
      refine (hins _ _).trans ?_
      refine List.Perm.trans (List.Perm.append_right _ ?_)
        (List.Perm.of_eq (List.take_append_drop (2 + runTail cmp (sortBefore cmp a1 a0) a1 rest)
          (a0 :: a1 :: rest)))
      split
      · exact List.reverse_perm _
      · exact List.Perm.refl _

/-- A host like `asciiHost` that sorts under an inconsistent comparator by a
stable bottom-up merge sort. -/
def mergeHost : Host where
  toLowerCase := fun s => s.map asciiLower
  toLowerCase_ascii := fun _ _ => rfl
  dateParseOther := fun _ => none
  toLocaleString := JSNum.toString
  sortInconsistent := mergeSortBottomUp
  sortInconsistent_perm := by
    intro cmp l
    have hmerge : ∀ (fuel : Nat) (a b : List Vehicle),
        (mergeRuns cmp fuel a b).Perm (a ++ b) := by
      intro fuel
      induction fuel with
      | zero => intro a b; exact List.Perm.refl _
      | succ fuel ih =>
        intro a b
        cases a with
        | nil => simp [mergeRuns]
        | cons x xs =>
          cases b with
          | nil => simp [mergeRuns]
          | cons y ys =>
            unfold mergeRuns
            split
            · exact (List.Perm.cons y (ih (x :: xs) ys)).trans List.perm_middle.symm
            · exact List.Perm.cons x (ih xs (y :: ys))
    have hpairs : ∀ (n : Nat) (runs : List (List Vehicle)), runs.length ≤ n →
        (mergePairs cmp runs).flatten.Perm runs.flatten := by
      intro n
      induction n with
      | zero =>
        intro runs hn
        have : runs = [] := List.length_eq_zero.1 (Nat.le_zero.1 hn)
        subst this
        exact List.Perm.refl _
      | succ n ih =>
        intro runs hn
        match runs with
        | [] => exact List.Perm.refl _
        | [_] => exact List.Perm.refl _
        | a :: b :: rest =>
          have hrest : rest.length ≤ n := by
            simp only [List.length_cons] at hn
            omega
          show (mergeRuns cmp (a.length + b.length) a b ++ (mergePairs cmp rest).flatten).Perm
            (a ++ (b ++ rest.flatten))
          rw [← List.append_assoc]
          exact List.Perm.append (hmerge _ a b) (ih rest hrest)
    have hall : ∀ (fuel : Nat) (runs : List (List Vehicle)),
        (mergeAll cmp fuel runs).Perm runs.flatten := by
      intro fuel
      induction fuel with
      | zero => intro runs; exact List.Perm.refl _
      | succ fuel ih =>
        intro runs
        match runs with
        | [] => exact List.Perm.refl _
        | [r] => simp [mergeAll]
        | a :: b :: rest =>
          exact (ih _).trans (hpairs _ _ (Nat.le_refl _))
    refine (hall _ _).trans (List.Perm.of_eq ?_)
    induction l with
    | nil => rfl
    | cons x xs ih => simpa using ih

/-! ## Presenter -/

/-- Source `formatEngine`. -/
def formatEngine (e : JSVal) : JSVal :=
  if e.isNullish then JSVal.str []
  else
    match e with
    | JSVal.num x =>
      if JSNum.ge x (JSNum.ofNat 100) then JSVal.str (x.toString ++ "cc".toList)
      else JSVal.str (x.toString ++ "L".toList)
    | _ => e

/-- Source `firstImage`. -/
def firstImage (v : Vehicle) : JSVal :=
  match v.images with
  | some (x :: _) => x
  | _ => JSVal.str "images/placeholder.png".toList

/-- Source `escapeHtml`. -/
def escapeHtml (str : JSVal) : JSString :=
  if str.isNullish then []
  else
    replaceAll '\'' "&#039;".toList
      (replaceAll '"' "&quot;".toList
        (replaceAll '>' "&gt;".toList
          (replaceAll '<' "&lt;".toList
            (replaceAll '&' "&amp;".toList str.toStr))))

/-- The substitution of one character: the five reserved characters become
their entities, any other character is kept. -/
def escapeChar (c : Char) : JSString :=
  if c = '&' then "&amp;".toList
  else if c = '<' then "&lt;".toList
  else if c = '>' then "&gt;".toList
  else if c = '"' then "&quot;".toList
  else if c = '\'' then "&#039;".toList
  else [c]

/-- The single-pass substitution, character by character, that the five
successive replacements of `escapeHtml` are compared with. -/
def escapeSinglePass (s : JSString) : JSString :=
  s.flatMap escapeChar

/-- What follows the `&` in the five entities. -/
def entityTails : List JSString :=
  ["amp;".toList, "lt;".toList, "gt;".toList, "quot;".toList, "#039;".toList]

/-- Whether every `&` of the text is followed by the rest of an entity. -/
def ampersandsStartEntities : JSString → Bool
  | [] => true
  | c :: s =>
    (c != '&' || entityTails.any (fun e => startsWith s e)) && ampersandsStartEntities s

/-- The upper-case hexadecimal digit of a value below 16. -/
def hexDigit (n : Nat) : Char :=
  if n < 10 then Char.ofNat (48 + n) else Char.ofNat (55 + n)

/-- The UTF-8 bytes of a code point. -/
def utf8Bytes (n : Nat) : List Nat :=
  if n < 0x80 then [n]
  else if n < 0x800 then [0xC0 + n / 64, 0x80 + n % 64]
  else if n < 0x10000 then [0xE0 + n / 4096, 0x80 + n / 64 % 64, 0x80 + n % 64]
  else [0xF0 + n / 262144, 0x80 + n / 4096 % 64, 0x80 + n / 64 % 64, 0x80 + n % 64]

/-- Characters `encodeURIComponent` leaves as they are. -/
def isUriUnreserved (c : Char) : Bool :=
  let n := c.toNat
  (48 ≤ n && n ≤ 57) || (65 ≤ n && n ≤ 90) || (97 ≤ n && n ≤ 122) ||
  c = '-' || c = '_' || c = '.' || c = '!' || c = '~' || c = '*' || c = '\'' ||
  c = '(' || c = ')'

/-- The function `encodeURIComponent` on a string. -/
def encodeURIComponent : JSString → JSString
  | [] => []
  | c :: s =>
    (if isUriUnreserved c then [c]
     else (utf8Bytes c.toNat).flatMap (fun b => ['%', hexDigit (b / 16), hexDigit (b % 16)]))
    ++ encodeURIComponent s

/-- The template literal assigned to `col.innerHTML` in `renderVehicles`. -/
def cardMarkup (h : Host) (v : Vehicle) : JSString :=
  let imgSrc := firstImage v
  let engineDisplay := formatEngine v.engineSize
  "\n        <div class=\"blog_box h-100 d-flex flex-column\">\n          <div class=\"blog_img\">\n            <!-- onerror fallback to placeholder -->\n            <img src=\"".toList
  ++ imgSrc.toStr
  ++ "\" alt=\"".toList
  ++ escapeHtml (JSVal.str (v.make.toStr ++ " ".toList ++ v.model.toStr))
  ++ "\" onerror=\"this.onerror=null;this.src='images/placeholder.png'\">\n          </div>\n          <div class=\"btn_main\">\n            <div class=\"date_text\"><a href=\"#\">$".toList
  ++ h.toLocaleString v.price.toNumber
  ++ "</a></div>\n          </div>\n          <h3 class=\"blog_text\">".toList
  ++ escapeHtml v.make
  ++ " ".toList
  ++ escapeHtml v.model
  ++ "</h3>\n          <p class=\"lorem_text\">".toList
  ++ escapeHtml v.year
  ++ " — ".toList
  ++ escapeHtml engineDisplay
  ++ " — ".toList
  ++ escapeHtml v.transmission
  ++ " — ".toList
  ++ escapeHtml v.color
  ++ "</p>\n          <ul class=\"list-unstyled mt-2 small\">\n            <li><strong>Model Code:</strong> ".toList
  ++ escapeHtml (v.modelCode.or (JSVal.str []))
  ++ "</li>\n            <li><strong>Engine:</strong> ".toList
  ++ escapeHtml engineDisplay
  ++ "</li>\n          </ul>\n          <div class=\"mt-auto read_bt\">\n            <a href=\"vehicle.html?id=".toList
  ++ encodeURIComponent v.id.toStr
  ++ "\">View Details\n              <span class=\"arrow_icon\"><i class=\"fa fa-long-arrow-right\" aria-hidden=\"true\"></i></span>\n            </a>\n          </div>\n        </div>\n      ".toList

/-- A child of the results grid: markup assigned through `grid.innerHTML`,
or a `div` created by the script with its class name and its `innerHTML`. -/
inductive GridNode
  | html (markup : JSString)
  | col (className : JSString) (innerHTML : JSString)
  deriving DecidableEq, Repr

/-! ## Dates -/

/-- Leap years of the Gregorian calendar. -/
def isLeapYear (y : Nat) : Bool :=
  (y % 4 = 0 && y % 100 != 0) || y % 400 = 0

/-- The number of days of month `m` of year `y`. -/
def daysInMonth (y m : Nat) : Nat :=
  if m = 2 then (if isLeapYear y then 29 else 28)
  else if m = 4 ∨ m = 6 ∨ m = 9 ∨ m = 11 then 30
  else 31

/-- The number of days from 1970-01-01 to the given civil date. -/
def dayNumber (y m d : Nat) : Int :=
  let y' : Int := if m ≤ 2 then (y : Int) - 1 else (y : Int)
  let era := y' / 400
  let yoe := y' - era * 400
  let mp : Int := if 2 < m then (m : Int) - 3 else (m : Int) + 9
  let doy := (153 * mp + 2) / 5 + (d : Int) - 1
  let doe := yoe * 365 + yoe / 4 - yoe / 100 + doy
  era * 146097 + doe - 719468

/-- The date part `YYYY-MM-DD` of the ISO format, with a month from 01 to 12
and a day that exists in that month. -/
def parseIsoDate : JSString → Option Int
  | [y1, y2, y3, y4, '-', m1, m2, '-', d1, d2] =>
    match JSNum.readDigits 10 0 [y1, y2, y3, y4], JSNum.readDigits 10 0 [m1, m2],
        JSNum.readDigits 10 0 [d1, d2] with
    | some y, some m, some d =>
      if 1 ≤ m ∧ m ≤ 12 ∧ 1 ≤ d ∧ d ≤ daysInMonth y m then some (dayNumber y m d) else none
    | _, _, _ => none
  | _ => none

/-- The time part `HH:mm:ssZ` or `HH:mm:ss.sssZ` of the ISO format, in
milliseconds from the start of the day. -/
def parseIsoTime (s : JSString) : Option Int :=
  let hms : Option (Nat × Nat × Nat × Nat) :=
    match s with
    | [h1, h2, ':', m1, m2, ':', s1, s2, 'Z'] =>
      match JSNum.readDigits 10 0 [h1, h2], JSNum.readDigits 10 0 [m1, m2],
          JSNum.readDigits 10 0 [s1, s2] with
      | some hh, some mm, some ss => some (hh, mm, ss, 0)
      | _, _, _ => none
    | [h1, h2, ':', m1, m2, ':', s1, s2, '.', f1, f2, f3, 'Z'] =>
      match JSNum.readDigits 10 0 [h1, h2], JSNum.readDigits 10 0 [m1, m2],
          JSNum.readDigits 10 0 [s1, s2], JSNum.readDigits 10 0 [f1, f2, f3] with
      | some hh, some mm, some ss, some ms => some (hh, mm, ss, ms)
      | _, _, _, _ => none
    | _ => none
  match hms with
  | some (hh, mm, ss, ms) =>
    if hh ≤ 23 ∧ mm ≤ 59 ∧ ss ≤ 59 then
      some ((hh : Int) * 3600000 + (mm : Int) * 60000 + (ss : Int) * 1000 + (ms : Int))
    else none
  | none => none

/-- The time value of the ISO strings `YYYY-MM-DD`, `YYYY-MM-DDTHH:mm:ssZ`
and `YYYY-MM-DDTHH:mm:ss.sssZ`, which the standard fixes (UTC). -/
def isoTimeValue (s : JSString) : Option Int :=
  match parseIsoDate (s.take 10), s.drop 10 with
  | some day, [] => some (day * 86400000)
  | some day, 'T' :: t =>
    match parseIsoTime t with
    | some ms => some (day * 86400000 + ms)
    | none => none
  | _, _ => none

/-- The largest magnitude of a time value. -/
def maxTime : Nat := 8640000000000000

/-- The function `Date.parse`: a time value, or `none` for an invalid date.
Strings the embedding does not read as ISO format go to the host. -/
def dateParse (h : Host) (s : JSString) : Option Int :=
  match isoTimeValue s with
  | some t => some t
  | none =>
    match h.dateParseOther s with
    | some t => if t.natAbs ≤ maxTime then some t else none
    | none => none

/-- The operation `TimeClip` on a number. -/
def timeClip : JSNum → Option Int
  | JSNum.fin k => if maxTime * JSNum.one < k.natAbs then none else some (k.tdiv JSNum.one)
  | _ => none

/-- The time value of `new Date(v)`; `none` is an invalid date. -/
def newDate (h : Host) (v : JSVal) : Option Int :=
  match v with
  | JSVal.str s => dateParse h s
  | _ => timeClip v.toNumber

/-- The number a `Date` converts to in an arithmetic expression. -/
def dateToNumber : Option Int → JSNum
  | some t => JSNum.fin (t * JSNum.one)
  | none => JSNum.nan

/-! ## Arrays -/

/-- The method `Array.prototype.filter`: the elements passing the test are
appended, in index order, to a new array. -/
def arrayFilter {α : Type} (p : α → Bool) (xs : List α) : List α :=
  xs.foldl (fun acc x => if p x then acc ++ [x] else acc) []

/-- The method `Array.prototype.sort` with a comparator.  For a consistent
comparator the standard fixes the result, sorted and stable; for an
inconsistent comparator the order is the host's. -/
def sortArray (h : Host) (cmp : Vehicle → Vehicle → JSNum) (l : List Vehicle) :
    List Vehicle :=
  if isConsistent cmp l then arraySort cmp l else h.sortInconsistent cmp l

/-! ## State -/

/-- The state of the page script: the store of arrays, the references held
by `vehicles` and `currentList`, and the children of the results grid. -/
structure State where
  heap : List (List Vehicle)
  vehicles : Nat
  currentList : Nat
  grid : List GridNode
  deriving DecidableEq, Repr

namespace State

/-- The array a reference names. -/
def read (st : State) (r : Nat) : List Vehicle :=
  st.heap.getD r []

/-- A new array with the given elements; returns the new state and the
reference. -/
def alloc (st : State) (a : List Vehicle) : State × Nat :=
  ({ st with heap := st.heap ++ [a] }, st.heap.length)

/-- Replaces the elements of the array a reference names. -/
def write (st : State) (r : Nat) (a : List Vehicle) : State :=
  { st with heap := st.heap.set r a }

/-- Both variables name arrays of the store. -/
def WellFormed (st : State) : Prop :=
  st.vehicles < st.heap.length ∧ st.currentList < st.heap.length

instance (st : State) : Decidable st.WellFormed := by
  unfold WellFormed; infer_instance

end State

/-- The state after `let vehicles = []; let currentList = [];`. -/
def initialState : State :=
  { heap := [[], []], vehicles := 0, currentList := 1, grid := [] }

/-- The grid that `renderVehicles` leaves for the array `list`. -/
def renderGrid (h : Host) (list : List Vehicle) : List GridNode :=
  if list.length = 0 then
    [GridNode.html "<div class=\"col-12 text-center text-muted\">No vehicles found.</div>".toList]
  else
    [] ++ list.map (fun v => GridNode.col "col-md-4 mb-4".toList (cardMarkup h v))

/-- Source `renderVehicles`, applied to the array that `list` names. -/
def renderVehicles (h : Host) (list : Nat) (st : State) : State :=
  { st with grid := renderGrid h (st.read list) }

/-! ## Filter stage -/

/-- The search form: the value of each named control, `none` when the form
has no control of that name. -/
structure FormData where
  make : Option JSString := none
  model : Option JSString := none
  year : Option JSString := none
  enginesize : Option JSString := none
  deriving DecidableEq, Repr

/-- The value of a control is empty or white space only, or the form has no
such control. -/
def isBlank (field : Option JSString) : Prop :=
  match field with
  | some s => ∀ c ∈ s, isStrWhiteSpace c = true
  | none => True

/-- The expression `formData.get(name) || ""`. -/
def orEmpty : Option JSString → JSString
  | some s => s
  | none => []

/-- The constant `okMake` (and `okModel`) of the filter callback, for the
query term `q` and the record field `f`. -/
def okText (h : Host) (q : JSString) (f : JSVal) : Bool :=
  q.isEmpty || (f.truthy && includes (h.toLowerCase f.toStr) q)

/-- The constant `okYear` of the filter callback. -/
def okYear (year : JSString) (f : JSVal) : Bool :=
  year.isEmpty || (f.truthy && decide (f.toStr = year))

/-- The variable `okEngine` of the filter callback at its end. -/
def okEngine (h : Host) (enginesizeInput : JSString) (engineQueryNum : JSVal)
    (ve : JSVal) : Bool :=
  if enginesizeInput.isEmpty then true
  else if ve.isNullish then false
  else
    match ve with
    | JSVal.num x =>
      if !engineQueryNum.toNumber.isNaN then
        if JSNum.ge x (JSNum.ofNat 100) then
          (match engineQueryNum with
           | JSVal.num q => JSNum.strictEq x q
           | _ => false)
        else
          JSNum.lt (JSNum.abs (JSNum.sub x engineQueryNum.toNumber))
            (JSNum.ofDecimal false 1 (-2))
      else includes (h.toLowerCase ve.toStr) (h.toLowerCase enginesizeInput)
    | _ => includes (h.toLowerCase ve.toStr) (h.toLowerCase enginesizeInput)

/-- The callback given to `vehicles.filter` in `applySearch`. -/
def searchCallback (h : Host) (make model year enginesizeInput : JSString)
    (engineQueryNum : JSVal) (v : Vehicle) : Bool :=
  okText h make v.make && okText h model v.model && okYear year v.year &&
    okEngine h enginesizeInput engineQueryNum v.engineSize

/-- The constant `make` (and `model`) of `applySearch`. -/
def queryText (h : Host) (field : Option JSString) : JSString :=
  h.toLowerCase (trim (orEmpty field))

/-- The constant `engineQueryNum` of `applySearch`. -/
def engineQuery (enginesizeInput : JSString) : JSVal :=
  if enginesizeInput.isEmpty then JSVal.null else JSVal.num (JSNum.ofString enginesizeInput)

/-- The filter callback of `applySearch` for the given form. -/
def matcher (h : Host) (formData : FormData) (v : Vehicle) : Bool :=
  searchCallback h (queryText h formData.make) (queryText h formData.model)
    (trim (orEmpty formData.year)) (trim (orEmpty formData.enginesize))
    (engineQuery (trim (orEmpty formData.enginesize))) v

/-- Source `applySearch`; `searchForm` is `none` when the page has no search
form. -/
def applySearch (h : Host) (searchForm : Option FormData) (st : State) : State :=
  match searchForm with
  | none => renderVehicles h st.vehicles st
  | some formData =>
    let filtered := st.alloc (arrayFilter (matcher h formData) (st.read st.vehicles))
    let st1 : State := { filtered.1 with currentList := filtered.2 }
    renderVehicles h st1.currentList st1

/-! ## Sorter -/

/-- The operand `Number(a.price || 0)` of the `price` comparator. -/
def priceKey (v : Vehicle) : JSNum :=
  (v.price.or (JSVal.num (JSNum.fin 0))).toNumber

/-- The comparator of the `price` sort. -/
def priceCompare (a b : Vehicle) : JSNum :=
  JSNum.sub (priceKey a) (priceKey b)

/-- The constant `da` (and `db`) of the `date` comparator. -/
def dateOf (h : Host) (v : Vehicle) : Option Int :=
  if v.dateAdded.truthy then newDate h v.dateAdded else newDate h (JSVal.num (JSNum.fin 0))

/-- The comparator of the `date` sort. -/
def dateCompare (h : Host) (a b : Vehicle) : JSNum :=
  JSNum.sub (dateToNumber (dateOf h b)) (dateToNumber (dateOf h a))

/-- The operand `Number(a.year || 0)` of the `year` comparator. -/
def yearKey (v : Vehicle) : JSNum :=
  (v.year.or (JSVal.num (JSNum.fin 0))).toNumber

/-- The comparator of the `year` sort. -/
def yearCompare (a b : Vehicle) : JSNum :=
  JSNum.sub (yearKey b) (yearKey a)

/-- The price of the record is a number, a text that converts to a number,
or is missing. -/
def hasNumericPrice (v : Vehicle) : Bool :=
  match v.price with
  | JSVal.undefined => true
  | JSVal.null => true
  | JSVal.num _ => true
  | JSVal.str s => !(JSNum.ofString s).isNaN
  | JSVal.bool _ => false

/-- No record of the list has `NaN` as its key for the given sort key: every
price (for "price") or year (for "year") converts to a number or is falsy,
every dateAdded (for "date") that is present is a valid date.  Any other sort
key asks nothing. -/
def keysAreNumbers (h : Host) (key : JSString) (l : List Vehicle) : Prop :=
  if key = "price".toList then ∀ v ∈ l, (priceKey v).isNaN = false
  else if key = "date".toList then ∀ v ∈ l, (dateOf h v).isSome = true
  else if key = "year".toList then ∀ v ∈ l, (yearKey v).isNaN = false
  else True

/-- Source `applySortBy`. -/
def applySortBy (h : Host) (key : JSString) (st : State) : State :=
  let copy :=
    if (st.read st.currentList).length ≠ 0 then st.alloc (st.read st.currentList)
    else st.alloc (st.read st.vehicles)
  let st1 := copy.1
  let listToSort := copy.2
  if key.isEmpty then renderVehicles h listToSort st1
  else
    let st2 :=
      if key = "price".toList then
        st1.write listToSort (sortArray h priceCompare (st1.read listToSort))
      else if key = "date".toList then
        st1.write listToSort (sortArray h (dateCompare h) (st1.read listToSort))
      else if key = "year".toList then
        st1.write listToSort (sortArray h yearCompare (st1.read listToSort))
      else st1
    renderVehicles h listToSort st2

/-- The elements `listToSort` is created with in `applySortBy`. -/
def sortInput (st : State) : List Vehicle :=
  if (st.read st.currentList).length ≠ 0 then st.read st.currentList else st.read st.vehicles

/-- The elements of `listToSort` when `applySortBy` renders it, given the
elements it was created with. -/
def sortOutput (h : Host) (key : JSString) (l : List Vehicle) : List Vehicle :=
  if key = "price".toList then sortArray h priceCompare l
  else if key = "date".toList then sortArray h (dateCompare h) l
  else if key = "year".toList then sortArray h yearCompare l
  else l

/-! ## Loading -/

/-- The second `then` handler of the load and the `catch` handler after it;
`data` is `none` when the parsed body is not an array. -/
def loadHandler (h : Host) (data : Option (List Vehicle)) (st : State) : State :=
  match data with
  | none =>
    { st with grid :=
        [GridNode.html
          "<div class=\"col-12 text-center text-danger\">Failed to load vehicle data.</div>".toList] }
  | some d =>
    let parsed := st.alloc d
    let st1 : State := { parsed.1 with vehicles := parsed.2 }
    let copy := st1.alloc (st1.read st1.vehicles)
    let st2 : State := { copy.1 with currentList := copy.2 }
    renderVehicles h st2.currentList st2

/-- The states reached from a successful load by search submissions (with or
without a search form on the page) and sort changes.  The load may happen in
any state. -/
inductive Reachable (h : Host) : State → Prop
  | load (data : List Vehicle) (st : State) : Reachable h (loadHandler h (some data) st)
  | search (searchForm : Option FormData) (st : State) :
      Reachable h st → Reachable h (applySearch h searchForm st)
  | sort (key : JSString) (st : State) :
      Reachable h st → Reachable h (applySortBy h key st)

/-! ## The scenario of the specification -/

/-- The first record of the scenario collection. -/
def scenarioFirst : Vehicle :=
  { make := JSVal.str "Toyota".toList, year := JSVal.num (JSNum.ofNat 2020),
    engineSize := JSVal.num (JSNum.ofNat 1800), price := JSVal.num (JSNum.ofNat 15000) }

/-- The second record of the scenario collection; `1.8` is the double the
literal denotes. -/
def scenarioSecond : Vehicle :=
  { make := JSVal.str "Toyota".toList, year := JSVal.num (JSNum.ofNat 2019),
    engineSize := JSVal.num (JSNum.ofDecimal false 18 (-1)),
    price := JSVal.num (JSNum.ofNat 12000) }

/-- A record whose image reference and id hold reserved markup characters. -/
def markupInRecord : Vehicle :=
  { id := JSVal.str "o'neil".toList, make := JSVal.str "Toyota".toList,
    images := some [JSVal.str "x\" onerror=\"alert(1)".toList] }

/-- A record without `dateAdded`. -/
def undatedRecord : Vehicle :=
  { make := JSVal.str "Toyota".toList }

/-- A record whose `dateAdded` is before 1970. -/
def earlyRecord : Vehicle :=
  { make := JSVal.str "Honda".toList, dateAdded := JSVal.str "1969-07-20".toList }

/-- The state after the collection of `earlyRecord` and `undatedRecord`, in
this order, has been loaded. -/
def earlyLoaded : State :=
  loadHandler asciiHost (some [earlyRecord, undatedRecord]) initialState

/-- A record whose price and year are texts that do not convert to a
number. -/
def unpricedRecord : Vehicle :=
  { make := JSVal.str "Toyota".toList, price := JSVal.str "call us".toList,
    year := JSVal.str "unknown".toList }

/-- A record with the given number as id and the given price. -/
def pricedRecord (n : Nat) (price : JSVal) : Vehicle :=
  { id := JSVal.num (JSNum.ofNat n), price := price }

/-- Seven records with the prices 1, 1, 3, 2, "unknown", 2, 2. -/
def unstableInput : List Vehicle :=
  [pricedRecord 0 (JSVal.num (JSNum.ofNat 1)), pricedRecord 1 (JSVal.num (JSNum.ofNat 1)),
    pricedRecord 2 (JSVal.num (JSNum.ofNat 3)), pricedRecord 3 (JSVal.num (JSNum.ofNat 2)),
    pricedRecord 4 (JSVal.str "unknown".toList), pricedRecord 5 (JSVal.num (JSNum.ofNat 2)),
    pricedRecord 6 (JSVal.num (JSNum.ofNat 2))]

/-- Five records with the prices "unknown", 2, "unknown", 1, 1. -/
def twiceInput : List Vehicle :=
  [pricedRecord 0 (JSVal.str "unknown".toList), pricedRecord 1 (JSVal.num (JSNum.ofNat 2)),
    pricedRecord 2 (JSVal.str "unknown".toList), pricedRecord 3 (JSVal.num (JSNum.ofNat 1)),
    pricedRecord 4 (JSVal.num (JSNum.ofNat 1))]

/-- The records of `unstableInput` in the order 0, 1, 3, 6, 2, 4, 5. -/
def unstableRendered : List Vehicle :=
  [pricedRecord 0 (JSVal.num (JSNum.ofNat 1)), pricedRecord 1 (JSVal.num (JSNum.ofNat 1)),
    pricedRecord 3 (JSVal.num (JSNum.ofNat 2)), pricedRecord 6 (JSVal.num (JSNum.ofNat 2)),
    pricedRecord 2 (JSVal.num (JSNum.ofNat 3)), pricedRecord 4 (JSVal.str "unknown".toList),
    pricedRecord 5 (JSVal.num (JSNum.ofNat 2))]

/-- The records of `twiceInput` in the order 0, 4, 1, 2, 3. -/
def twiceOnce : List Vehicle :=
  [pricedRecord 0 (JSVal.str "unknown".toList), pricedRecord 4 (JSVal.num (JSNum.ofNat 1)),
    pricedRecord 1 (JSVal.num (JSNum.ofNat 2)), pricedRecord 2 (JSVal.str "unknown".toList),
    pricedRecord 3 (JSVal.num (JSNum.ofNat 1))]

/-- The records of `twiceInput` in the order 0, 4, 3, 1, 2. -/
def twiceAgain : List Vehicle :=
  [pricedRecord 0 (JSVal.str "unknown".toList), pricedRecord 4 (JSVal.num (JSNum.ofNat 1)),
    pricedRecord 3 (JSVal.num (JSNum.ofNat 1)), pricedRecord 1 (JSVal.num (JSNum.ofNat 2)),
    pricedRecord 2 (JSVal.str "unknown".toList)]

/-- The state after the scenario collection has been loaded. -/
def scenarioLoaded (h : Host) : State :=
  loadHandler h (some [scenarioFirst, scenarioSecond]) initialState

/-! # Theorems -/

/-! ## Store lemmas -/

theorem State.read_alloc_new (st : State) (a : List Vehicle) :
    (st.alloc a).1.read (st.alloc a).2 = a := by
  simp [State.alloc, State.read, List.getD_eq_getElem?_getD]

theorem State.read_alloc_old (st : State) (a : List Vehicle) (r : Nat)
    (hr : r < st.heap.length) : (st.alloc a).1.read r = st.read r := by
  simp [State.alloc, State.read, List.getD_eq_getElem?_getD, List.getElem?_append_left hr]

theorem State.read_write_same (st : State) (a : List Vehicle) (r : Nat)
    (hr : r < st.heap.length) : (st.write r a).read r = a := by
  simp [State.write, State.read, List.getD_eq_getElem?_getD, hr]

theorem State.read_write_other (st : State) (a : List Vehicle) (r r' : Nat)
    (hne : r ≠ r') : (st.write r a).read r' = st.read r' := by
  simp [State.write, State.read, List.getD_eq_getElem?_getD, List.getElem?_set_ne hne]

/-! ## Filter -/

theorem arrayFilter_foldl {α : Type} (p : α → Bool) (xs acc : List α) :
    xs.foldl (fun acc x => if p x then acc ++ [x] else acc) acc = acc ++ xs.filter p := by
  induction xs generalizing acc with
  | nil => simp
  | cons x xs ih =>
    by_cases hp : p x = true
    · simp [List.foldl_cons, ih, hp, List.filter_cons]
    · simp [List.foldl_cons, ih, hp, List.filter_cons]

theorem arrayFilter_eq_filter {α : Type} (p : α → Bool) (xs : List α) :
    arrayFilter p xs = xs.filter p := by
  simp [arrayFilter, arrayFilter_foldl]

theorem applySearch_currentList (h : Host) (formData : FormData) (st : State) :
    (applySearch h (some formData) st).read (applySearch h (some formData) st).currentList
      = (st.read st.vehicles).filter (matcher h formData) := by
  simp only [applySearch, renderVehicles]
  show (st.alloc _).1.read (st.alloc _).2 = _
  rw [State.read_alloc_new, arrayFilter_eq_filter]

theorem set_length_append {α : Type} (l : List α) (a b : α) :
    (l ++ [a]).set l.length b = l ++ [b] := by
  induction l with
  | nil => rfl
  | cons x xs ih => simp [List.set_cons_succ, ih]

theorem read_set_length_append (heap : List (List Vehicle)) (a b : List Vehicle) :
    ((heap ++ [a]).set heap.length b).getD heap.length [] = b := by
  simp [set_length_append, List.getD_eq_getElem?_getD]

theorem applySortBy_eq (h : Host) (key : JSString) (st : State) :
    applySortBy h key st =
      { heap := st.heap ++ [sortOutput h key (sortInput st)],
        vehicles := st.vehicles, currentList := st.currentList,
        grid := renderGrid h (sortOutput h key (sortInput st)) } := by
  have hcopy : (if (st.read st.currentList).length ≠ 0 then st.alloc (st.read st.currentList)
      else st.alloc (st.read st.vehicles)) = st.alloc (sortInput st) := by
    unfold sortInput; split <;> rfl
  have hread : (st.alloc (sortInput st)).1.read (st.alloc (sortInput st)).2 = sortInput st :=
    State.read_alloc_new _ _
  unfold applySortBy
  rw [hcopy]
  by_cases hk : key.isEmpty = true
  · have hnil : key = [] := by simpa using hk
    subst hnil
    simp [renderVehicles, hread, sortOutput]
    simp [State.alloc]
  · rw [if_neg hk]
    unfold sortOutput
    by_cases h1 : key = "price".toList
    · simp only [if_pos h1, renderVehicles, hread]
      simp [State.write, State.alloc, State.read, set_length_append, read_set_length_append]
    · by_cases h2 : key = "date".toList
      · simp only [if_neg h1, if_pos h2, renderVehicles, hread]
        simp [State.write, State.alloc, State.read, set_length_append, read_set_length_append]
      · by_cases h3 : key = "year".toList
        · simp only [if_neg h1, if_neg h2, if_pos h3, renderVehicles, hread]
          simp [State.write, State.alloc, State.read, set_length_append, read_set_length_append]
        · simp only [if_neg h1, if_neg h2, if_neg h3, renderVehicles, hread]
          simp [State.alloc]

theorem applySortBy_grid (h : Host) (key : JSString) (st : State) :
    (applySortBy h key st).grid = renderGrid h (sortOutput h key (sortInput st)) := by
  rw [applySortBy_eq]

theorem applySearch_eq (h : Host) (formData : FormData) (st : State) :
    applySearch h (some formData) st =
      { heap := st.heap ++ [(st.read st.vehicles).filter (matcher h formData)],
        vehicles := st.vehicles, currentList := st.heap.length,
        grid := renderGrid h ((st.read st.vehicles).filter (matcher h formData)) } := by
  simp [applySearch, renderVehicles, State.alloc, State.read, arrayFilter_eq_filter,
    List.getD_eq_getElem?_getD]

theorem read_append_old (heap : List (List Vehicle)) (a : List Vehicle) (r : Nat)
    (hr : r < heap.length) : (heap ++ [a]).getD r [] = heap.getD r [] := by
  simp [List.getD_eq_getElem?_getD, List.getElem?_append_left hr]

/-- C1: a search submission replaces the working subset by the records of the
source collection on which the filter callback returns true, in the order of
the source collection; the result is the same from any state with the same
source collection, whatever the previous working subset; and the callback
returns true on a record exactly when its make, model, year and engine-size
sub-matches all hold. -/
theorem applySearch_is_filter (h : Host) (formData : FormData) (st : State) :
    (applySearch h (some formData) st).read (applySearch h (some formData) st).currentList
        = (st.read st.vehicles).filter (matcher h formData)
    ∧ ((applySearch h (some formData) st).read
          (applySearch h (some formData) st).currentList).Sublist (st.read st.vehicles)
    ∧ (∀ v, v ∈ (applySearch h (some formData) st).read
          (applySearch h (some formData) st).currentList
        ↔ v ∈ st.read st.vehicles ∧ matcher h formData v = true)
    ∧ (∀ st2 : State, st2.read st2.vehicles = st.read st.vehicles →
        (applySearch h (some formData) st2).read (applySearch h (some formData) st2).currentList
          = (applySearch h (some formData) st).read
              (applySearch h (some formData) st).currentList)
    ∧ (∀ v, matcher h formData v = true ↔
        (okText h (queryText h formData.make) v.make = true
          ∧ okText h (queryText h formData.model) v.model = true
          ∧ okYear (trim (orEmpty formData.year)) v.year = true
          ∧ okEngine h (trim (orEmpty formData.enginesize))
              (engineQuery (trim (orEmpty formData.enginesize))) v.engineSize = true)) := by
  have key : ∀ s : State,
      (applySearch h (some formData) s).read (applySearch h (some formData) s).currentList
        = (s.read s.vehicles).filter (matcher h formData) := applySearch_currentList h formData
  refine ⟨key st, ?_, ?_, ?_, ?_⟩
  · rw [key]; exact List.filter_sublist _
  · intro v; rw [key]; simp [List.mem_filter]
  · intro st2 h2; rw [key, key, h2]
  · intro v
    simp [matcher, searchCallback, Bool.and_eq_true, and_assoc]

/-- C10: in a state whose variables name arrays of the store, neither a search
submission (with or without a search form) nor a sort (with any key) changes
the source collection, a sort leaves the working subset as it was, and a sort
changes no array that existed before it: what it orders is a new array. -/
theorem source_collection_unchanged (h : Host) (searchForm : Option FormData)
    (key : JSString) (st : State) (hwf : st.WellFormed) :
    (applySearch h searchForm st).read (applySearch h searchForm st).vehicles
        = st.read st.vehicles
    ∧ (applySortBy h key st).read (applySortBy h key st).vehicles = st.read st.vehicles
    ∧ (applySortBy h key st).read (applySortBy h key st).currentList
        = st.read st.currentList
    ∧ (∀ r, r < st.heap.length → (applySortBy h key st).read r = st.read r)
    ∧ (applySearch h searchForm st).WellFormed
    ∧ (applySortBy h key st).WellFormed := by
  obtain ⟨hv, hc⟩ := hwf
  have hsort : ∀ r, r < st.heap.length → (applySortBy h key st).read r = st.read r := by
    intro r hr
    rw [applySortBy_eq]
    exact read_append_old _ _ _ hr
  refine ⟨?_, ?_, ?_, hsort, ?_, ?_⟩
  · cases searchForm with
    | none => rfl
    | some formData =>
      rw [applySearch_eq]
      exact read_append_old _ _ _ hv
  · rw [(applySortBy_eq h key st ▸ rfl : (applySortBy h key st).vehicles = st.vehicles)]
    exact hsort _ hv
  · rw [(applySortBy_eq h key st ▸ rfl : (applySortBy h key st).currentList = st.currentList)]
    exact hsort _ hc
  · cases searchForm with
    | none => exact ⟨hv, hc⟩
    | some formData =>
      rw [applySearch_eq]
      constructor
      · show st.vehicles < (st.heap ++ [_]).length
        simp; omega
      · show st.heap.length < (st.heap ++ [_]).length
        simp
  · rw [applySortBy_eq]
    constructor
    · show st.vehicles < (st.heap ++ [_]).length
      simp; omega
    · show st.currentList < (st.heap ++ [_]).length
      simp; omega

/-- The frame property at the loaded scenario collection, sorted by `price`. -/
theorem source_collection_unchanged_witness :
    (scenarioLoaded asciiHost).WellFormed
    ∧ (applySortBy asciiHost "price".toList (scenarioLoaded asciiHost)).read
        (applySortBy asciiHost "price".toList (scenarioLoaded asciiHost)).vehicles
      = (scenarioLoaded asciiHost).read (scenarioLoaded asciiHost).vehicles :=
  ⟨by decide,
    (source_collection_unchanged asciiHost none "price".toList (scenarioLoaded asciiHost)
      (by decide)).2.1⟩

/-! ## Escaping -/

theorem replaceAll_append (c : Char) (r a b : JSString) :
    replaceAll c r (a ++ b) = replaceAll c r a ++ replaceAll c r b := by
  induction a with
  | nil => rfl
  | cons d a ih =>
    by_cases hd : d = c <;> simp [replaceAll, hd, ih]

theorem escape_singleton (d : Char) :
    replaceAll '\'' "&#039;".toList
      (replaceAll '"' "&quot;".toList
        (replaceAll '>' "&gt;".toList
          (replaceAll '<' "&lt;".toList
            (replaceAll '&' "&amp;".toList [d])))) = escapeChar d := by
  unfold escapeChar
  by_cases h1 : d = '&'
  · subst h1; decide
  by_cases h2 : d = '<'
  · subst h2; decide
  by_cases h3 : d = '>'
  · subst h3; decide
  by_cases h4 : d = '"'
  · subst h4; decide
  by_cases h5 : d = '\''
  · subst h5; decide
  simp [replaceAll, h1, h2, h3, h4, h5]

theorem escape_eq_flatMap (s : JSString) :
    replaceAll '\'' "&#039;".toList
      (replaceAll '"' "&quot;".toList
        (replaceAll '>' "&gt;".toList
          (replaceAll '<' "&lt;".toList
            (replaceAll '&' "&amp;".toList s)))) = s.flatMap escapeChar := by
  induction s with
  | nil => rfl
  | cons d s ih =>
    have hcons : d :: s = [d] ++ s := rfl
    rw [hcons]
    simp only [replaceAll_append, List.flatMap_append, ih, escape_singleton]
    simp [List.flatMap]

theorem escapeHtml_eq (v : JSVal) :
    escapeHtml v = if v.isNullish then [] else v.toStr.flatMap escapeChar := by
  unfold escapeHtml
  split
  · rfl
  · exact escape_eq_flatMap _

theorem startsWith_iff (s t : JSString) : startsWith s t = true ↔ t <+: s := by
  induction t generalizing s with
  | nil => cases s <;> simp [startsWith]
  | cons d t ih =>
    cases s with
    | nil => simp [startsWith]
    | cons c s =>
      simp only [startsWith, Bool.and_eq_true, decide_eq_true_eq, ih, List.cons_prefix_cons]
      constructor
      · rintro ⟨h1, h2⟩; exact ⟨h1.symm, h2⟩
      · rintro ⟨h1, h2⟩; exact ⟨h1.symm, h2⟩

theorem escapeChar_no_markup (d c : Char) (hc : c ∈ escapeChar d) :
    c ≠ '<' ∧ c ≠ '>' ∧ c ≠ '"' ∧ c ≠ '\'' := by
  unfold escapeChar at hc
  split_ifs at hc with h1 h2 h3 h4 h5
  · have : c ∈ ['&', 'a', 'm', 'p', ';'] := hc
    simp only [List.mem_cons, List.mem_singleton, List.not_mem_nil, or_false] at this
    rcases this with h | h | h | h | h <;> subst h <;> decide
  · have : c ∈ ['&', 'l', 't', ';'] := hc
    simp only [List.mem_cons, List.mem_singleton, List.not_mem_nil, or_false] at this
    rcases this with h | h | h | h <;> subst h <;> decide
  · have : c ∈ ['&', 'g', 't', ';'] := hc
    simp only [List.mem_cons, List.mem_singleton, List.not_mem_nil, or_false] at this
    rcases this with h | h | h | h <;> subst h <;> decide
  · have : c ∈ ['&', 'q', 'u', 'o', 't', ';'] := hc
    simp only [List.mem_cons, List.mem_singleton, List.not_mem_nil, or_false] at this
    rcases this with h | h | h | h | h | h <;> subst h <;> decide
  · have : c ∈ ['&', '#', '0', '3', '9', ';'] := hc
    simp only [List.mem_cons, List.mem_singleton, List.not_mem_nil, or_false] at this
    rcases this with h | h | h | h | h | h <;> subst h <;> decide
  · have : c = d := by simpa using hc
    subst this
    exact ⟨h2, h3, h4, h5⟩

theorem ampersands_escapeChar_append (d : Char) (rest : JSString)
    (hrest : ampersandsStartEntities rest = true) :
    ampersandsStartEntities (escapeChar d ++ rest) = true := by
  unfold escapeChar
  split_ifs with h1 h2 h3 h4 h5
  · simp [ampersandsStartEntities, entityTails, startsWith, hrest]
  · simp [ampersandsStartEntities, entityTails, startsWith, hrest]
  · simp [ampersandsStartEntities, entityTails, startsWith, hrest]
  · simp [ampersandsStartEntities, entityTails, startsWith, hrest]
  · simp [ampersandsStartEntities, entityTails, startsWith, hrest]
  · simp [ampersandsStartEntities, h1, hrest]

theorem ampersands_flatMap_escapeChar (s : JSString) :
    ampersandsStartEntities (s.flatMap escapeChar) = true := by
  induction s with
  | nil => rfl
  | cons d s ih =>
    rw [List.flatMap_cons]
    exact ampersands_escapeChar_append d _ ih

theorem ampersands_spec (out pre post : JSString)
    (hout : ampersandsStartEntities out = true) (hsplit : out = pre ++ '&' :: post) :
    ∃ e ∈ entityTails, e <+: post := by
  induction pre generalizing out with
  | nil =>
    subst hsplit
    simp only [List.nil_append, ampersandsStartEntities, bne_self_eq_false, Bool.false_or,
      Bool.and_eq_true, List.any_eq_true] at hout
    obtain ⟨⟨e, he, hs⟩, _⟩ := hout
    exact ⟨e, he, (startsWith_iff _ _).1 hs⟩
  | cons c pre ih =>
    subst hsplit
    simp only [List.cons_append, ampersandsStartEntities, Bool.and_eq_true] at hout
    exact ih _ hout.2 rfl

/-- C2: whatever value `escapeHtml` is given, its result contains none of the
characters `<`, `>`, `"` and `'`, and every `&` in it is followed by the rest
of one of the entities `&amp;`, `&lt;`, `&gt;`, `&quot;`, `&#039;`; on `null`
and on `undefined` the result is the empty string. -/
theorem escapeHtml_safe (v : JSVal) :
    (∀ c ∈ escapeHtml v, c ≠ '<' ∧ c ≠ '>' ∧ c ≠ '"' ∧ c ≠ '\'')
    ∧ (∀ pre post : JSString, escapeHtml v = pre ++ '&' :: post →
        ∃ e ∈ entityTails, e <+: post)
    ∧ escapeHtml JSVal.null = []
    ∧ escapeHtml JSVal.undefined = [] := by
  refine ⟨?_, ?_, rfl, rfl⟩
  · intro c hc
    rw [escapeHtml_eq] at hc
    split at hc
    · simp at hc
    · obtain ⟨d, _, hd⟩ := List.mem_flatMap.1 hc
      exact escapeChar_no_markup d c hd
  · intro pre post hsplit
    refine ampersands_spec (escapeHtml v) pre post ?_ hsplit
    rw [escapeHtml_eq]
    split
    · rfl
    · exact ampersands_flatMap_escapeChar _

/-! ## Text search -/

theorem includes_iff (s t : JSString) : includes s t = true ↔ t <:+: s := by
  induction s with
  | nil =>
    simp only [includes, startsWith_iff, List.prefix_nil, List.infix_nil]
  | cons c s ih =>
    simp only [includes, Bool.or_eq_true, startsWith_iff, ih, List.infix_cons_iff]

theorem includes_append_left (x y p : JSString) (hx : includes x p = true) :
    includes (x ++ y) p = true := by
  rw [includes_iff] at hx ⊢
  exact hx.trans (List.infix_append' [] x y)

/-! ## Card markup -/

/-- C3 (failing input): for the record `markupInRecord`, whose image
reference is `x" onerror="alert(1)` and whose id is `o'neil`, the card markup
holds the image reference as it is, quotation marks included, so that the
`img` tag reads `<img src="x" onerror="alert(1)" alt=...`; and
`encodeURIComponent` leaves the apostrophe of the id as it is. -/
theorem cardMarkup_embeds_raw_image (h : Host) :
    includes (cardMarkup h markupInRecord)
        "<img src=\"x\" onerror=\"alert(1)\" alt=\"".toList = true
    ∧ encodeURIComponent markupInRecord.id.toStr = "o'neil".toList := by
  constructor
  · unfold cardMarkup
    iterate 22 (apply includes_append_left)
    decide!
  · decide!

/-! ## Matcher -/

theorem Host.toLowerCase_nil (h : Host) : h.toLowerCase [] = [] := by
  simpa using h.toLowerCase_ascii [] (by simp)

theorem queryText_none (h : Host) : queryText h none = [] := by
  show h.toLowerCase (trim []) = []
  exact h.toLowerCase_nil

theorem JSNum.lt_nan_left (b : JSNum) : JSNum.lt JSNum.nan b = false := by
  cases b <;> rfl

theorem okEngine_num_iff (h : Host) (t : JSString) (ve : JSNum)
    (hne : t ≠ []) (hq : (JSNum.ofString t).isNaN = false) :
    okEngine h t (engineQuery t) (JSVal.num ve) = true ↔
      (JSNum.ge ve (JSNum.ofNat 100) = true ∧ JSNum.strictEq ve (JSNum.ofString t) = true)
      ∨ (JSNum.lt ve (JSNum.ofNat 100) = true
          ∧ JSNum.lt (JSNum.abs (JSNum.sub ve (JSNum.ofString t)))
              (JSNum.ofDecimal false 1 (-2)) = true) := by
  have hemp : t.isEmpty = false := by
    cases t with
    | nil => exact absurd rfl hne
    | cons _ _ => rfl
  have h100 : (JSNum.ofNat 100).isNaN = false := by decide!
  simp only [okEngine, engineQuery, hemp, JSVal.isNullish, JSVal.toNumber, hq,
    Bool.false_eq_true, if_false, Bool.not_false, if_true]
  by_cases hge : JSNum.ge ve (JSNum.ofNat 100) = true
  · have hlt : JSNum.lt ve (JSNum.ofNat 100) = false := by
      simp only [JSNum.ge, Bool.and_eq_true, Bool.not_eq_true', h100] at hge
      exact hge.2
    simp [hge, hlt]
  · simp only [hge, Bool.false_eq_true, if_false, false_and, false_or]
    constructor
    · intro hclose
      refine ⟨?_, hclose⟩
      cases hx : ve.isNaN with
      | true =>
        have hnan : ve = JSNum.nan := by
          cases ve <;> simp_all [JSNum.isNaN]
        rw [hnan] at hclose
        have : JSNum.sub JSNum.nan (JSNum.ofString t) = JSNum.nan := by
          simp [JSNum.sub]
        rw [this] at hclose
        exact absurd hclose (by simp [JSNum.abs, JSNum.lt_nan_left])
      | false =>
        simpa [JSNum.ge, hx, h100] using hge
    · exact fun hh => hh.2

theorem matcher_engine_only (h : Host) (e : JSString) (v : Vehicle) :
    matcher h { enginesize := some e } v
      = okEngine h (trim e) (engineQuery (trim e)) v.engineSize := by
  have ht : trim ([] : JSString) = [] := rfl
  simp [matcher, searchCallback, queryText_none, okText, okYear, orEmpty, ht]

theorem scenarioLoaded_vehicles (h : Host) :
    (scenarioLoaded h).read (scenarioLoaded h).vehicles = [scenarioFirst, scenarioSecond] :=
  rfl

/-- C4: for a record whose engineSize is the number `ve` and an engine query
that is non-empty after trimming and converts to a number `q`, the engine
sub-match holds exactly when `ve >= 100` and `ve === q`, or `ve < 100` and
`|ve - q| < 0.01` (in the arithmetic of the script).  The record with
engineSize 1800 passes the query "1800" and fails "1.8", the record with
engineSize 1.8 passes "1.8" and fails "1800", and on the scenario collection
the query with enginesize "1800" leaves the first record only. -/
theorem engine_size_match (h : Host) (input : JSString) (ve : JSNum)
    (hne : trim input ≠ []) (hq : (JSNum.ofString (trim input)).isNaN = false) :
    (okEngine h (trim input) (engineQuery (trim input)) (JSVal.num ve) = true ↔
      (JSNum.ge ve (JSNum.ofNat 100) = true
          ∧ JSNum.strictEq ve (JSNum.ofString (trim input)) = true)
      ∨ (JSNum.lt ve (JSNum.ofNat 100) = true
          ∧ JSNum.lt (JSNum.abs (JSNum.sub ve (JSNum.ofString (trim input))))
              (JSNum.ofDecimal false 1 (-2)) = true))
    ∧ matcher h { enginesize := some "1800".toList } scenarioFirst = true
    ∧ matcher h { enginesize := some "1.8".toList } scenarioFirst = false
    ∧ matcher h { enginesize := some "1.8".toList } scenarioSecond = true
    ∧ matcher h { enginesize := some "1800".toList } scenarioSecond = false
    ∧ (applySearch h (some { enginesize := some "1800".toList }) (scenarioLoaded h)).read
        (applySearch h (some { enginesize := some "1800".toList }) (scenarioLoaded h)).currentList
        = [scenarioFirst] := by
  have t1 : trim "1800".toList = "1800".toList := by decide
  have t2 : trim "1.8".toList = "1.8".toList := by decide
  have a1 : matcher h { enginesize := some "1800".toList } scenarioFirst = true := by
    rw [matcher_engine_only, t1]
    exact (okEngine_num_iff h _ _ (by decide) (by decide!)).2 (by decide!)
  have a2 : matcher h { enginesize := some "1.8".toList } scenarioFirst = false := by
    rw [matcher_engine_only, t2]
    exact Bool.eq_false_iff.2 (fun hh =>
      absurd ((okEngine_num_iff h _ _ (by decide) (by decide!)).1 hh) (by decide!))
  have a3 : matcher h { enginesize := some "1.8".toList } scenarioSecond = true := by
    rw [matcher_engine_only, t2]
    exact (okEngine_num_iff h _ _ (by decide) (by decide!)).2 (by decide!)
  have a4 : matcher h { enginesize := some "1800".toList } scenarioSecond = false := by
    rw [matcher_engine_only, t1]
    exact Bool.eq_false_iff.2 (fun hh =>
      absurd ((okEngine_num_iff h _ _ (by decide) (by decide!)).1 hh) (by decide!))
  refine ⟨okEngine_num_iff h _ ve hne hq, a1, a2, a3, a4, ?_⟩
  rw [applySearch_currentList, scenarioLoaded_vehicles, List.filter_cons_of_pos a1,
    List.filter_cons_of_neg (by rw [a4]; exact Bool.false_ne_true), List.filter_nil]

/-- The engine sub-match at the query "1800" and the engine size 1800. -/
theorem engine_size_match_witness :
    trim "1800".toList ≠ [] ∧ (JSNum.ofString (trim "1800".toList)).isNaN = false
    ∧ matcher asciiHost { enginesize := some "1800".toList } scenarioFirst = true :=
  ⟨by decide, by decide!,
    (engine_size_match asciiHost "1800".toList (JSNum.ofNat 1800) (by decide) (by decide!)).2.1⟩

/-! ## Year and text sub-matches -/

/-- C5 (as stated, refuted): the year query "0" is non-empty after trimming
and the year `0` of the record converts to the text "0", the query text, yet
the year sub-match fails and the record is filtered out. -/
theorem okYear_zero_mismatch :
    trim "0".toList ≠ []
    ∧ (JSVal.num (JSNum.fin 0)).toStr = trim "0".toList
    ∧ okYear (trim "0".toList) (JSVal.num (JSNum.fin 0)) = false
    ∧ matcher asciiHost { year := some "0".toList } { year := JSVal.num (JSNum.fin 0) } = false := by
  refine ⟨by decide, by decide, by decide, by decide⟩

/-- C5 (amended): the year sub-match holds exactly when the trimmed year
query is empty, or the record's year is truthy (not missing, `null`, `false`,
`0`, `NaN` or the empty text) and its text equals the trimmed query text. -/
theorem okYear_spec (q : JSString) (year : JSVal) :
    okYear (trim q) year = true ↔
      trim q = [] ∨ (year.truthy = true ∧ year.toStr = trim q) := by
  unfold okYear
  cases hq : trim q with
  | nil => simp
  | cons c t => simp

/-! ### White space around a query -/

theorem trimEnd_all_ws (w : JSString) (hw : ∀ c ∈ w, isStrWhiteSpace c = true) :
    trimEnd w = [] := by
  induction w with
  | nil => rfl
  | cons c w ih =>
    have h1 : trimEnd w = [] := ih (fun d hd => hw d (List.mem_cons_of_mem _ hd))
    simp [trimEnd, h1, hw c (List.mem_cons_self _ _)]

theorem trimEnd_append_ws (a w : JSString) (hw : ∀ c ∈ w, isStrWhiteSpace c = true) :
    trimEnd (a ++ w) = trimEnd a := by
  induction a with
  | nil => simpa [trimEnd] using trimEnd_all_ws w hw
  | cons c a ih => simp [trimEnd, ih]

theorem dropWhile_all_ws (w : JSString) (hw : ∀ c ∈ w, isStrWhiteSpace c = true) :
    w.dropWhile isStrWhiteSpace = [] := by
  induction w with
  | nil => rfl
  | cons c w ih =>
    simp [List.dropWhile, hw c (List.mem_cons_self _ _),
      ih (fun d hd => hw d (List.mem_cons_of_mem _ hd))]

theorem trim_append_ws (q w : JSString) (hw : ∀ c ∈ w, isStrWhiteSpace c = true) :
    trim (q ++ w) = trim q := by
  unfold trim
  induction q with
  | nil => simp [dropWhile_all_ws w hw]
  | cons c q ih =>
    by_cases hc : isStrWhiteSpace c = true
    · simpa [List.dropWhile, hc] using ih
    · have : (c :: q ++ w).dropWhile isStrWhiteSpace = (c :: q) ++ w := by
        simp [List.dropWhile, hc]
      rw [this]
      have : (c :: q).dropWhile isStrWhiteSpace = c :: q := by
        simp [List.dropWhile, hc]
      rw [this]
      exact trimEnd_append_ws _ _ hw

theorem trim_ws_append (w q : JSString) (hw : ∀ c ∈ w, isStrWhiteSpace c = true) :
    trim (w ++ q) = trim q := by
  unfold trim
  induction w with
  | nil => rfl
  | cons c w ih =>
    have hc := hw c (List.mem_cons_self _ _)
    simpa [List.dropWhile, hc] using ih (fun d hd => hw d (List.mem_cons_of_mem _ hd))

theorem trim_surrounded (w1 q w2 : JSString) (h1 : ∀ c ∈ w1, isStrWhiteSpace c = true)
    (h2 : ∀ c ∈ w2, isStrWhiteSpace c = true) : trim (w1 ++ q ++ w2) = trim q := by
  rw [List.append_assoc, trim_ws_append _ _ h1, trim_append_ws _ _ h2]

/-! ### Letter case of ASCII text -/

theorem isStrWhiteSpace_asciiLower (c : Char) :
    isStrWhiteSpace (asciiLower c) = isStrWhiteSpace c := by
  unfold asciiLower
  split
  · rename_i hc
    obtain ⟨h1, h2⟩ := hc
    have hcn : c = Char.ofNat c.toNat := (Char.ofNat_toNat c).symm
    generalize c.toNat = n at hcn h1 h2
    subst hcn
    interval_cases n <;> decide
  · rfl

theorem trimEnd_map_asciiLower (s : JSString) :
    trimEnd (s.map asciiLower) = (trimEnd s).map asciiLower := by
  induction s with
  | nil => rfl
  | cons c s ih =>
    simp only [List.map_cons, trimEnd, ih, isStrWhiteSpace_asciiLower]
    cases trimEnd s with
    | nil => by_cases hc : isStrWhiteSpace c = true <;> simp [hc]
    | cons d r => simp

theorem dropWhile_map_asciiLower (s : JSString) :
    (s.map asciiLower).dropWhile isStrWhiteSpace
      = (s.dropWhile isStrWhiteSpace).map asciiLower := by
  induction s with
  | nil => rfl
  | cons c s ih =>
    by_cases hc : isStrWhiteSpace c = true
    · simp [List.dropWhile, hc, isStrWhiteSpace_asciiLower, ih]
    · simp [List.dropWhile, hc, isStrWhiteSpace_asciiLower]

theorem trim_map_asciiLower (s : JSString) :
    trim (s.map asciiLower) = (trim s).map asciiLower := by
  unfold trim
  rw [dropWhile_map_asciiLower, trimEnd_map_asciiLower]

theorem trimEnd_subset (s : JSString) : ∀ c ∈ trimEnd s, c ∈ s := by
  induction s with
  | nil => simp [trimEnd]
  | cons d s ih =>
    intro c hc
    simp only [trimEnd] at hc
    cases hts : trimEnd s with
    | nil =>
      rw [hts] at hc
      by_cases hd : isStrWhiteSpace d = true
      · simp [hd] at hc
      · simp [hd] at hc
        simp [hc]
    | cons e r =>
      rw [hts] at hc ih
      rcases List.mem_cons.1 hc with h | h
      · simp [h]
      · exact List.mem_cons_of_mem _ (ih c h)

theorem trim_subset (s : JSString) : ∀ c ∈ trim s, c ∈ s := by
  intro c hc
  exact (List.dropWhile_sublist _).subset (trimEnd_subset _ c hc)

theorem okText_str_iff (h : Host) (m f : JSString) :
    okText h m (JSVal.str f) = true ↔ m = [] ∨ m <:+: h.toLowerCase f := by
  unfold okText
  cases m with
  | nil => simp
  | cons c m =>
    cases f with
    | nil => simp [JSVal.truthy, h.toLowerCase_nil]
    | cons d f => simp [JSVal.truthy, JSVal.toStr, includes_iff]

theorem Host.toLowerCase_trim_ascii (h : Host) (q : JSString) (hq : ∀ c ∈ q, c.toNat < 128) :
    h.toLowerCase (trim q) = trim (q.map asciiLower) := by
  rw [h.toLowerCase_ascii _ (fun c hc => hq c (trim_subset q c hc)), trim_map_asciiLower]

/-- C6 (as stated, refuted): with the query "straße", the record whose make
is "Straße" passes the make sub-match and the record whose make is "STRASSE",
the same word in capitals, fails it: lower-casing gives "straße" for the
first and "strasse" for the second, so a change of letter case of the record
field changes the outcome.  (On these three texts the lower-casing of
`asciiHost` is that of the script: `S` becomes `s`, `ß` stays.) -/
theorem okText_case_change :
    asciiHost.toLowerCase "Straße".toList = "straße".toList
    ∧ asciiHost.toLowerCase "STRASSE".toList = "strasse".toList
    ∧ queryText asciiHost (some "straße".toList) = "straße".toList
    ∧ okText asciiHost (queryText asciiHost (some "straße".toList))
        (JSVal.str "Straße".toList) = true
    ∧ okText asciiHost (queryText asciiHost (some "straße".toList))
        (JSVal.str "STRASSE".toList) = false
    ∧ matcher asciiHost { make := some "straße".toList }
        { make := JSVal.str "Straße".toList } = true
    ∧ matcher asciiHost { make := some "straße".toList }
        { make := JSVal.str "STRASSE".toList } = false := by
  refine ⟨by decide, by decide, by decide, by decide, by decide, by decide, by decide⟩

/-- C6 (amended): for a record whose make (or model) is a text `f` and a
query term `q`, the sub-match holds exactly when the trimmed, lower-cased
query is empty or occurs in the lower-cased field, and an absent query term
matches.  Hence the outcome is the same for a query and a field with the
same lower-casing as `q` (after trimming) and `f`; for texts of ASCII
characters that is the case whenever they agree with `q` and `f` up to the
case of the letters; and white space around the query does not change the
outcome. -/
theorem okText_spec (h : Host) (q f : JSString) :
    (okText h (queryText h (some q)) (JSVal.str f) = true ↔
      queryText h (some q) = [] ∨ queryText h (some q) <:+: h.toLowerCase f)
    ∧ queryText h (some q) = h.toLowerCase (trim q)
    ∧ okText h (queryText h none) (JSVal.str f) = true
    ∧ (∀ q' f' : JSString, h.toLowerCase (trim q') = h.toLowerCase (trim q) →
        h.toLowerCase f' = h.toLowerCase f →
        okText h (queryText h (some q')) (JSVal.str f')
          = okText h (queryText h (some q)) (JSVal.str f))
    ∧ (∀ q' f' : JSString, (∀ c ∈ q ++ q' ++ f ++ f', c.toNat < 128) →
        q'.map asciiLower = q.map asciiLower → f'.map asciiLower = f.map asciiLower →
        okText h (queryText h (some q')) (JSVal.str f')
          = okText h (queryText h (some q)) (JSVal.str f))
    ∧ (∀ w1 w2 : JSString, (∀ c ∈ w1, isStrWhiteSpace c = true) →
        (∀ c ∈ w2, isStrWhiteSpace c = true) →
        okText h (queryText h (some (w1 ++ q ++ w2))) (JSVal.str f)
          = okText h (queryText h (some q)) (JSVal.str f)) := by
  have hsame : ∀ q' f' : JSString, h.toLowerCase (trim q') = h.toLowerCase (trim q) →
      h.toLowerCase f' = h.toLowerCase f →
      okText h (queryText h (some q')) (JSVal.str f')
        = okText h (queryText h (some q)) (JSVal.str f) := by
    intro q' f' hq hf
    rw [Bool.eq_iff_iff, okText_str_iff, okText_str_iff]
    show h.toLowerCase (trim q') = [] ∨ h.toLowerCase (trim q') <:+: h.toLowerCase f' ↔
      h.toLowerCase (trim q) = [] ∨ h.toLowerCase (trim q) <:+: h.toLowerCase f
    rw [hq, hf]
  refine ⟨okText_str_iff h _ f, rfl, ?_, hsame, ?_, ?_⟩
  · rw [queryText_none]; rfl
  · intro q' f' hascii hq hf
    have hA : ∀ c ∈ q, c.toNat < 128 := fun c hc => hascii c (by simp [hc])
    have hB : ∀ c ∈ q', c.toNat < 128 := fun c hc => hascii c (by simp [hc])
    have hC : ∀ c ∈ f, c.toNat < 128 := fun c hc => hascii c (by simp [hc])
    have hD : ∀ c ∈ f', c.toNat < 128 := fun c hc => hascii c (by simp [hc])
    apply hsame
    · rw [h.toLowerCase_trim_ascii q hA, h.toLowerCase_trim_ascii q' hB, hq]
    · rw [h.toLowerCase_ascii f hC, h.toLowerCase_ascii f' hD, hf]
  · intro w1 w2 h1 h2
    show okText h (h.toLowerCase (trim (w1 ++ q ++ w2))) _ = okText h (h.toLowerCase (trim q)) _
    rw [trim_surrounded w1 q w2 h1 h2]

/-! ## Order of numbers -/

namespace JSNum

theorem log2Search_le (i acc n : Nat) (hacc : 2 ^ acc ≤ n) : 2 ^ log2Search i acc n ≤ n := by
  induction i generalizing acc with
  | zero => exact hacc
  | succ i ih =>
    unfold log2Search
    split
    · rename_i hle
      exact ih _ hle
    · exact ih _ hacc

theorem two_pow_floorLog2_le (n : Nat) (hn : 0 < n) : 2 ^ floorLog2 n ≤ n := by
  unfold floorLog2
  exact log2Search_le _ 0 n (by simpa using hn)

theorem overflow_pos : 0 < overflow := by
  decide!

theorem roundRatio_zero : roundRatio 0 1 = 0 := by
  simp [roundRatio]

theorem roundRatio_pos (n : Nat) (hn : 0 < n) : 0 < roundRatio n 1 := by
  unfold roundRatio
  simp only [Nat.div_one, one_mul]
  have hs : 2 ^ (floorLog2 n - 52) ≤ n :=
    le_trans (Nat.pow_le_pow_right (by decide) (Nat.sub_le _ _)) (two_pow_floorLog2_le n hn)
  have hq : 0 < n / 2 ^ (floorLog2 n - 52) :=
    Nat.div_pos hs (Nat.pos_pow_of_pos _ (by decide))
  have hp : 0 < 2 ^ (floorLog2 n - 52) := Nat.pos_pow_of_pos _ (by decide)
  split
  · exact Nat.mul_pos (Nat.succ_pos _) hp
  · exact Nat.mul_pos hq hp

theorem lt_zero_ofSteps (k : Int) : lt (fin 0) (ofSteps k) = true ↔ 0 < k := by
  unfold ofSteps ofRatio
  rcases lt_trichotomy k 0 with hk | hk | hk
  · have hpos : 0 < roundRatio k.natAbs 1 := roundRatio_pos _ (Int.natAbs_pos.2 (ne_of_lt hk))
    have hd : decide (k < 0) = true := by simpa using hk
    simp only [hd, if_true]
    split
    · simp [lt]; omega
    · simp [lt]; omega
  · subst hk
    have hov : ¬ overflow ≤ 0 := Nat.not_le.2 overflow_pos
    simp [roundRatio_zero, hov, lt]
  · have hpos : 0 < roundRatio k.natAbs 1 := roundRatio_pos _ (Int.natAbs_pos.2 (ne_of_gt hk))
    have hd : decide (k < 0) = false := by simpa using le_of_lt hk
    simp only [hd, Bool.false_eq_true, if_false]
    split
    · simp [lt]; omega
    · simp [lt]; omega

theorem lt_zero_sub (a b : JSNum) (ha : a.isNaN = false) (hb : b.isNaN = false) :
    lt (fin 0) (sub a b) = true ↔ lt b a = true := by
  cases a with
  | nan => simp [isNaN] at ha
  | posInf => cases b <;> simp_all [isNaN, sub, lt]
  | negInf => cases b <;> simp_all [isNaN, sub, lt]
  | fin x =>
    cases b with
    | nan => simp [isNaN] at hb
    | posInf => simp [sub, lt]
    | negInf => simp [sub, lt]
    | fin y =>
      show lt (fin 0) (ofSteps (x - y)) = true ↔ lt (fin y) (fin x) = true
      rw [lt_zero_ofSteps]
      simp [lt]

theorem le_total_of_not_nan (a b : JSNum) (ha : a.isNaN = false) (hb : b.isNaN = false) :
    le a b = true ∨ le b a = true := by
  cases a <;> cases b <;> simp_all [isNaN, le, lt]
  omega

theorem le_trans_num (a b c : JSNum) (hab : le a b = true) (hbc : le b c = true) :
    le a c = true := by
  cases a <;> cases b <;> cases c <;> simp_all [isNaN, le, lt]
  omega

theorem le_of_not_lt (a b : JSNum) (ha : a.isNaN = false) (hb : b.isNaN = false)
    (h : lt b a = false) : le a b = true := by
  simp [le, ha, hb, h]

theorem le_of_lt (a b : JSNum) (h : lt a b = true) : le a b = true := by
  cases a <;> cases b <;> simp_all [isNaN, le, lt]
  omega

theorem lt_ofSteps_zero (k : Int) : lt (ofSteps k) (fin 0) = true ↔ k < 0 := by
  unfold ofSteps ofRatio
  rcases lt_trichotomy k 0 with hk | hk | hk
  · have hpos : 0 < roundRatio k.natAbs 1 := roundRatio_pos _ (Int.natAbs_pos.2 (ne_of_lt hk))
    have hd : decide (k < 0) = true := by simpa using hk
    simp only [hd, if_true]
    split
    · simp [lt]; omega
    · simp [lt]; omega
  · subst hk
    have hov : ¬ overflow ≤ 0 := Nat.not_le.2 overflow_pos
    simp [roundRatio_zero, hov, lt]
  · have hpos : 0 < roundRatio k.natAbs 1 := roundRatio_pos _ (Int.natAbs_pos.2 (ne_of_gt hk))
    have hd : decide (k < 0) = false := by simpa using Int.le_of_lt hk
    simp only [hd, Bool.false_eq_true, if_false]
    split
    · simp [lt]; omega
    · simp [lt]; omega

theorem lt_sub_zero (a b : JSNum) (ha : a.isNaN = false) (hb : b.isNaN = false) :
    lt (sub a b) (fin 0) = true ↔ lt a b = true := by
  cases a with
  | nan => simp [isNaN] at ha
  | posInf => cases b <;> simp_all [isNaN, sub, lt]
  | negInf => cases b <;> simp_all [isNaN, sub, lt]
  | fin x =>
    cases b with
    | nan => simp [isNaN] at hb
    | posInf => simp [sub, lt]
    | negInf => simp [sub, lt]
    | fin y =>
      show lt (ofSteps (x - y)) (fin 0) = true ↔ lt (fin x) (fin y) = true
      rw [lt_ofSteps_zero]
      simp [lt]

theorem lt_irrefl_num (a : JSNum) : lt a a = false := by
  cases a <;> simp [lt]

theorem lt_trans_num (a b c : JSNum) (hab : lt a b = true) (hbc : lt b c = true) :
    lt a c = true := by
  cases a <;> cases b <;> cases c <;> simp_all [lt]
  omega

theorem lt_neg_trans (a b c : JSNum) (ha : a.isNaN = false) (hb : b.isNaN = false)
    (hc : c.isNaN = false) (h1 : lt a b = false) (h2 : lt b a = false)
    (h3 : lt b c = false) (h4 : lt c b = false) : lt a c = false ∧ lt c a = false := by
  cases a <;> cases b <;> cases c <;> simp_all [lt, isNaN]
  omega

end JSNum

/-! ## Sorting -/

theorem insertSorted_perm {α : Type} (cmp : α → α → JSNum) (x : α) (l : List α) :
    (insertSorted cmp x l).Perm (x :: l) := by
  induction l with
  | nil => exact List.Perm.refl _
  | cons y ys ih =>
    unfold insertSorted
    split
    · exact (List.Perm.cons y ih).trans (List.Perm.swap x y ys)
    · exact List.Perm.refl _

theorem arraySort_perm {α : Type} (cmp : α → α → JSNum) (l : List α) :
    (arraySort cmp l).Perm l := by
  induction l with
  | nil => exact List.Perm.refl _
  | cons x xs ih =>
    exact (insertSorted_perm cmp x _).trans (List.Perm.cons x ih)

theorem insertSorted_pairwise {α : Type} (cmp : α → α → JSNum) (R : α → α → Prop)
    (x : α) (l : List α)
    (hpos : ∀ y ∈ l, JSNum.lt (JSNum.fin 0) (cmp x y) = true → R y x)
    (hneg : ∀ y ∈ l, JSNum.lt (JSNum.fin 0) (cmp x y) = false → R x y)
    (htrans : ∀ y ∈ l, ∀ z ∈ l, R x y → R y z → R x z)
    (hl : l.Pairwise R) : (insertSorted cmp x l).Pairwise R := by
  induction l with
  | nil => simp [insertSorted]
  | cons y ys ih =>
    obtain ⟨hy, hys⟩ := List.pairwise_cons.1 hl
    unfold insertSorted
    split
    · rename_i hgt
      refine List.pairwise_cons.2 ⟨?_, ?_⟩
      · intro z hz
        rcases List.mem_cons.1 ((insertSorted_perm cmp x ys).subset hz) with hzx | hz'
        · subst hzx
          exact hpos y (List.mem_cons_self _ _) hgt
        · exact hy z hz'
      · exact ih (fun z hz => hpos z (List.mem_cons_of_mem _ hz))
          (fun z hz => hneg z (List.mem_cons_of_mem _ hz))
          (fun a ha b hb => htrans a (List.mem_cons_of_mem _ ha) b (List.mem_cons_of_mem _ hb))
          hys
    · rename_i hgt
      have hxy : R x y := hneg y (List.mem_cons_self _ _) (by simpa using hgt)
      refine List.pairwise_cons.2 ⟨?_, hl⟩
      intro z hz
      rcases List.mem_cons.1 hz with hzy | hz'
      · subst hzy; exact hxy
      · exact htrans y (List.mem_cons_self _ _) z (List.mem_cons_of_mem _ hz') hxy (hy z hz')

theorem arraySort_pairwise {α : Type} (cmp : α → α → JSNum) (R : α → α → Prop) (l : List α)
    (hpos : ∀ x ∈ l, ∀ y ∈ l, JSNum.lt (JSNum.fin 0) (cmp x y) = true → R y x)
    (hneg : ∀ x ∈ l, ∀ y ∈ l, JSNum.lt (JSNum.fin 0) (cmp x y) = false → R x y)
    (htrans : ∀ x ∈ l, ∀ y ∈ l, ∀ z ∈ l, R x y → R y z → R x z) :
    (arraySort cmp l).Pairwise R := by
  induction l with
  | nil => exact List.Pairwise.nil
  | cons x xs ih =>
    have hsub : ∀ z, z ∈ arraySort cmp xs → z ∈ x :: xs := fun z hz =>
      List.mem_cons_of_mem _ ((arraySort_perm cmp xs).subset hz)
    have hx : x ∈ x :: xs := List.mem_cons_self _ _
    refine insertSorted_pairwise cmp R x _
      (fun y hy => hpos x hx y (hsub y hy))
      (fun y hy => hneg x hx y (hsub y hy))
      (fun y hy z hz => htrans x hx y (hsub y hy) z (hsub z hz))
      (ih (fun a ha b hb => hpos a (List.mem_cons_of_mem _ ha) b (List.mem_cons_of_mem _ hb))
        (fun a ha b hb => hneg a (List.mem_cons_of_mem _ ha) b (List.mem_cons_of_mem _ hb))
        (fun a ha b hb c hc =>
          htrans a (List.mem_cons_of_mem _ ha) b (List.mem_cons_of_mem _ hb) c
            (List.mem_cons_of_mem _ hc)))

/-- Sorting with the comparator `key a - key b` orders by `key`, ascending,
when no key is `NaN`. -/
theorem arraySort_ascending {α : Type} (key : α → JSNum) (l : List α)
    (hkey : ∀ a ∈ l, (key a).isNaN = false) :
    (arraySort (fun a b => JSNum.sub (key a) (key b)) l).Pairwise
      (fun a b => JSNum.le (key a) (key b) = true) := by
  refine arraySort_pairwise _ _ l ?_ ?_ ?_
  · intro x hx y hy hgt
    exact JSNum.le_of_lt _ _ ((JSNum.lt_zero_sub _ _ (hkey x hx) (hkey y hy)).1 hgt)
  · intro x hx y hy hgt
    refine JSNum.le_of_not_lt _ _ (hkey x hx) (hkey y hy) ?_
    cases hlt : JSNum.lt (key y) (key x) with
    | false => rfl
    | true =>
      rw [(JSNum.lt_zero_sub _ _ (hkey x hx) (hkey y hy)).2 hlt] at hgt
      exact absurd hgt (by simp)
  · intro x _ y _ z _ hxy hyz
    exact JSNum.le_trans_num _ _ _ hxy hyz

/-- Sorting with the comparator `key b - key a` orders by `key`, descending,
when no key is `NaN`. -/
theorem arraySort_descending {α : Type} (key : α → JSNum) (l : List α)
    (hkey : ∀ a ∈ l, (key a).isNaN = false) :
    (arraySort (fun a b => JSNum.sub (key b) (key a)) l).Pairwise
      (fun a b => JSNum.le (key b) (key a) = true) := by
  refine arraySort_pairwise _ _ l ?_ ?_ ?_
  · intro x hx y hy hgt
    exact JSNum.le_of_lt _ _ ((JSNum.lt_zero_sub _ _ (hkey y hy) (hkey x hx)).1 hgt)
  · intro x hx y hy hgt
    refine JSNum.le_of_not_lt _ _ (hkey y hy) (hkey x hx) ?_
    cases hlt : JSNum.lt (key x) (key y) with
    | false => rfl
    | true =>
      rw [(JSNum.lt_zero_sub _ _ (hkey y hy) (hkey x hx)).2 hlt] at hgt
      exact absurd hgt (by simp)
  · intro x _ y _ z _ hxy hyz
    exact JSNum.le_trans_num _ _ _ hyz hxy

theorem sortArray_perm (h : Host) (cmp : Vehicle → Vehicle → JSNum) (l : List Vehicle) :
    (sortArray h cmp l).Perm l := by
  unfold sortArray
  split
  · exact arraySort_perm _ _
  · exact h.sortInconsistent_perm _ _

theorem sortArray_consistent (h : Host) (cmp : Vehicle → Vehicle → JSNum) (l : List Vehicle)
    (hc : isConsistent cmp l = true) : sortArray h cmp l = arraySort cmp l := by
  unfold sortArray
  rw [if_pos hc]

/-- A comparator that puts `a` before `b` exactly when `r a b`, and after
when `r b a`, is consistent on a list on which `r` is a strict weak order. -/
theorem isConsistent_of_order {α : Type} (cmp : α → α → JSNum) (r : α → α → Bool)
    (l : List α)
    (hbefore : ∀ a ∈ l, ∀ b ∈ l, sortBefore cmp a b = r a b)
    (hafter : ∀ a ∈ l, ∀ b ∈ l, sortAfter cmp a b = r b a)
    (hirr : ∀ a ∈ l, r a a = false)
    (htrans : ∀ a ∈ l, ∀ b ∈ l, ∀ c ∈ l, r a b = true → r b c = true → r a c = true)
    (hneg : ∀ a ∈ l, ∀ b ∈ l, ∀ c ∈ l, r a b = false → r b a = false → r b c = false →
      r c b = false → r a c = false ∧ r c a = false) :
    isConsistent cmp l = true := by
  unfold isConsistent
  rw [List.all_eq_true]
  intro a ha
  rw [Bool.and_eq_true, List.all_eq_true]
  refine ⟨by simp [sortSame, hbefore a ha a ha, hafter a ha a ha, hirr a ha], ?_⟩
  intro b hb
  rw [Bool.and_eq_true, List.all_eq_true]
  refine ⟨?_, ?_⟩
  · simp only [sortSame, hbefore a ha b hb, hafter a ha b hb, hbefore b hb a ha,
      hafter b hb a ha]
    cases r a b <;> cases r b a <;> rfl
  · intro c hc
    have t1 := htrans a ha b hb c hc
    have t2 := htrans c hc b hb a ha
    have n1 := hneg a ha b hb c hc
    simp only [sortSame, hbefore a ha b hb, hafter a ha b hb, hbefore b hb c hc,
      hafter b hb c hc, hbefore a ha c hc, hafter a ha c hc]
    revert t1 t2 n1
    cases r a b <;> cases r b a <;> cases r b c <;> cases r c b <;> cases r a c <;>
      cases r c a <;> simp

theorem isConsistent_ascending {α : Type} (key : α → JSNum) (l : List α)
    (hkey : ∀ a ∈ l, (key a).isNaN = false) :
    isConsistent (fun a b => JSNum.sub (key a) (key b)) l = true := by
  refine isConsistent_of_order _ (fun a b => JSNum.lt (key a) (key b)) l ?_ ?_ ?_ ?_ ?_
  · intro a ha b hb
    exact Bool.eq_iff_iff.2 (JSNum.lt_sub_zero _ _ (hkey a ha) (hkey b hb))
  · intro a ha b hb
    exact Bool.eq_iff_iff.2 (JSNum.lt_zero_sub _ _ (hkey a ha) (hkey b hb))
  · intro a _
    exact JSNum.lt_irrefl_num _
  · intro a _ b _ c _ h1 h2
    exact JSNum.lt_trans_num _ _ _ h1 h2
  · intro a ha b hb c hc h1 h2 h3 h4
    exact JSNum.lt_neg_trans _ _ _ (hkey a ha) (hkey b hb) (hkey c hc) h1 h2 h3 h4

theorem isConsistent_descending {α : Type} (key : α → JSNum) (l : List α)
    (hkey : ∀ a ∈ l, (key a).isNaN = false) :
    isConsistent (fun a b => JSNum.sub (key b) (key a)) l = true := by
  refine isConsistent_of_order _ (fun a b => JSNum.lt (key b) (key a)) l ?_ ?_ ?_ ?_ ?_
  · intro a ha b hb
    exact Bool.eq_iff_iff.2 (JSNum.lt_sub_zero _ _ (hkey b hb) (hkey a ha))
  · intro a ha b hb
    exact Bool.eq_iff_iff.2 (JSNum.lt_zero_sub _ _ (hkey b hb) (hkey a ha))
  · intro a _
    exact JSNum.lt_irrefl_num _
  · intro a _ b _ c _ h1 h2
    exact JSNum.lt_trans_num _ _ _ h2 h1
  · intro a ha b hb c hc h1 h2 h3 h4
    exact JSNum.lt_neg_trans _ _ _ (hkey c hc) (hkey b hb) (hkey a ha) h3 h4 h1 h2

theorem sortOutput_perm (h : Host) (key : JSString) (l : List Vehicle) :
    (sortOutput h key l).Perm l := by
  unfold sortOutput
  split_ifs
  · exact sortArray_perm _ _ _
  · exact sortArray_perm _ _ _
  · exact sortArray_perm _ _ _
  · exact List.Perm.refl _

/-! ## Price sort -/

theorem priceKey_not_nan (v : Vehicle) (hv : hasNumericPrice v = true) :
    (priceKey v).isNaN = false := by
  unfold hasNumericPrice at hv
  unfold priceKey JSVal.or
  cases hp : v.price with
  | undefined => rfl
  | null => rfl
  | bool b => rw [hp] at hv; simp at hv
  | num x =>
    cases x with
    | fin k => by_cases hk : k = 0 <;> simp [JSVal.truthy, JSNum.isFalsy, JSVal.toNumber, JSNum.isNaN, hk]
    | nan => simp [JSVal.truthy, JSNum.isFalsy, JSVal.toNumber, JSNum.isNaN]
    | posInf => simp [JSVal.truthy, JSNum.isFalsy, JSVal.toNumber, JSNum.isNaN]
    | negInf => simp [JSVal.truthy, JSNum.isFalsy, JSVal.toNumber, JSNum.isNaN]
  | str s =>
    rw [hp] at hv
    cases s with
    | nil => rfl
    | cons c s => simpa [JSVal.truthy, JSVal.toNumber] using hv

theorem sortInput_eq (st : State) :
    sortInput st = if (st.read st.currentList).length ≠ 0 then st.read st.currentList
      else st.read st.vehicles := rfl

theorem lower_toyota (h : Host) : h.toLowerCase "toyota".toList = "toyota".toList := by
  rw [h.toLowerCase_ascii _ (by decide)]; decide

theorem lower_Toyota (h : Host) : h.toLowerCase "Toyota".toList = "toyota".toList := by
  rw [h.toLowerCase_ascii _ (by decide)]; decide

theorem matcher_toyota (h : Host) (v : Vehicle) (hmake : v.make = JSVal.str "Toyota".toList) :
    matcher h { make := some "toyota".toList } v = true := by
  have ht : trim ([] : JSString) = [] := rfl
  have ht2 : trim "toyota".toList = "toyota".toList := by decide
  have hq : queryText h (some "toyota".toList) = "toyota".toList := by
    show h.toLowerCase (trim "toyota".toList) = _
    rw [ht2, lower_toyota]
  have hm : okText h "toyota".toList (JSVal.str "Toyota".toList) = true := by
    show ("toyota".toList.isEmpty || ((JSVal.str "Toyota".toList).truthy &&
      includes (h.toLowerCase "Toyota".toList) "toyota".toList)) = true
    rw [lower_Toyota]; decide
  unfold matcher searchCallback
  rw [hq, queryText_none, hmake, hm]
  simp [okText, okYear, okEngine, orEmpty, ht]

theorem dateToNumber_not_nan (t : Option Int) (ht : t.isSome = true) :
    (dateToNumber t).isNaN = false := by
  cases t with
  | none => simp at ht
  | some x => rfl

theorem sortOutput_price (h : Host) (l : List Vehicle) :
    sortOutput h "price".toList l = sortArray h priceCompare l := by
  unfold sortOutput
  rw [if_pos rfl]

theorem sortOutput_date (h : Host) (l : List Vehicle) :
    sortOutput h "date".toList l = sortArray h (dateCompare h) l := by
  unfold sortOutput
  rw [if_neg (by decide), if_pos rfl]

theorem sortOutput_year (h : Host) (l : List Vehicle) :
    sortOutput h "year".toList l = sortArray h yearCompare l := by
  unfold sortOutput
  rw [if_neg (by decide), if_neg (by decide), if_pos rfl]

theorem sortOutput_price_numbers (h : Host) (l : List Vehicle)
    (hkey : ∀ a ∈ l, (priceKey a).isNaN = false) :
    sortOutput h "price".toList l = arraySort priceCompare l := by
  rw [sortOutput_price]
  exact sortArray_consistent h _ l (isConsistent_ascending priceKey l hkey)

theorem sortOutput_date_numbers (h : Host) (l : List Vehicle)
    (hkey : ∀ a ∈ l, (dateOf h a).isSome = true) :
    sortOutput h "date".toList l = arraySort (dateCompare h) l := by
  rw [sortOutput_date]
  exact sortArray_consistent h _ l
    (isConsistent_descending (fun v => dateToNumber (dateOf h v)) l
      (fun a ha => dateToNumber_not_nan _ (hkey a ha)))

theorem sortOutput_year_numbers (h : Host) (l : List Vehicle)
    (hkey : ∀ a ∈ l, (yearKey a).isNaN = false) :
    sortOutput h "year".toList l = arraySort yearCompare l := by
  rw [sortOutput_year]
  exact sortArray_consistent h _ l (isConsistent_descending yearKey l hkey)

theorem scenario_toyota_subset (h : Host) :
    (applySearch h (some { make := some "toyota".toList }) (scenarioLoaded h)).read
      (applySearch h (some { make := some "toyota".toList }) (scenarioLoaded h)).currentList
      = [scenarioFirst, scenarioSecond] := by
  rw [applySearch_currentList, scenarioLoaded_vehicles,
    List.filter_cons_of_pos (matcher_toyota h scenarioFirst rfl),
    List.filter_cons_of_pos (matcher_toyota h scenarioSecond rfl), List.filter_nil]

/-- C7: when every record of the list to sort (the working subset if it is
not empty, else the full collection) has a price that is a number, a text
that converts to a number, or is missing, the `price` sort renders a
permutation of that list in which the numeric prices never decrease, a
missing price counting as 0.  On the scenario collection the query with make
"toyota" keeps both records in their order, and the `price` sort that follows
renders the record priced 12000 first. -/
theorem price_sort_spec (h : Host) (st : State)
    (hnum : ∀ v ∈ (if (st.read st.currentList).length ≠ 0 then st.read st.currentList
      else st.read st.vehicles), hasNumericPrice v = true) :
    (∃ l : List Vehicle,
        l.Perm (if (st.read st.currentList).length ≠ 0 then st.read st.currentList
          else st.read st.vehicles)
        ∧ l.Pairwise (fun a b => JSNum.le (priceKey a) (priceKey b) = true)
        ∧ (applySortBy h "price".toList st).grid = renderGrid h l)
    ∧ (∀ v : Vehicle, v.price.isNullish = true → priceKey v = JSNum.fin 0)
    ∧ (applySearch h (some { make := some "toyota".toList }) (scenarioLoaded h)).read
        (applySearch h (some { make := some "toyota".toList }) (scenarioLoaded h)).currentList
        = [scenarioFirst, scenarioSecond]
    ∧ (applySortBy h "price".toList
        (applySearch h (some { make := some "toyota".toList }) (scenarioLoaded h))).grid
        = renderGrid h [scenarioSecond, scenarioFirst] := by
  refine ⟨⟨sortOutput h "price".toList (sortInput st), sortOutput_perm _ _ _, ?_,
    applySortBy_grid _ _ _⟩, ?_, scenario_toyota_subset h, ?_⟩
  · have hkey : ∀ a ∈ sortInput st, (priceKey a).isNaN = false :=
      fun a ha => priceKey_not_nan a (hnum a ha)
    rw [sortOutput_price_numbers h _ hkey]
    exact arraySort_ascending priceKey (sortInput st) hkey
  · intro v hv
    unfold priceKey JSVal.or
    cases hp : v.price <;> simp_all [JSVal.isNullish, JSVal.truthy, JSVal.toNumber]
  · rw [applySortBy_grid, sortInput_eq, scenario_toyota_subset]
    have hgt : JSNum.lt (JSNum.fin 0) (priceCompare scenarioFirst scenarioSecond) = true := by
      decide!
    have : sortOutput h "price".toList [scenarioFirst, scenarioSecond]
        = [scenarioSecond, scenarioFirst] := by
      rw [sortOutput_price_numbers h _ (by decide!)]
      simp only [arraySort, insertSorted, hgt, if_true]
    rw [if_pos (by decide), this]

/-- The `price` sort at the loaded scenario collection. -/
theorem price_sort_spec_witness :
    (∀ v ∈ (if ((scenarioLoaded asciiHost).read (scenarioLoaded asciiHost).currentList).length ≠ 0
        then (scenarioLoaded asciiHost).read (scenarioLoaded asciiHost).currentList
        else (scenarioLoaded asciiHost).read (scenarioLoaded asciiHost).vehicles),
        hasNumericPrice v = true)
    ∧ ∃ l : List Vehicle,
        l.Perm (if ((scenarioLoaded asciiHost).read
            (scenarioLoaded asciiHost).currentList).length ≠ 0
          then (scenarioLoaded asciiHost).read (scenarioLoaded asciiHost).currentList
          else (scenarioLoaded asciiHost).read (scenarioLoaded asciiHost).vehicles)
        ∧ l.Pairwise (fun a b => JSNum.le (priceKey a) (priceKey b) = true)
        ∧ (applySortBy asciiHost "price".toList (scenarioLoaded asciiHost)).grid
            = renderGrid asciiHost l :=
  ⟨by decide, (price_sort_spec asciiHost (scenarioLoaded asciiHost) (by decide)).1⟩

/-! ## Date sort -/

theorem dateOf_missing (h : Host) (v : Vehicle) (hv : v.dateAdded.truthy = false) :
    dateOf h v = some 0 := by
  unfold dateOf
  rw [hv]
  simp [newDate, timeClip, JSVal.toNumber]

theorem one_pos : 0 < JSNum.one := by
  decide!

theorem dateToNumber_le (s t : Int)
    (hle : JSNum.le (dateToNumber (some s)) (dateToNumber (some t)) = true) : s ≤ t := by
  have h1 : (0 : Int) < (JSNum.one : Int) := by exact_mod_cast one_pos
  have h2 : s * (JSNum.one : Int) ≤ t * (JSNum.one : Int) := by
    simpa [dateToNumber, JSNum.le, JSNum.isNaN, JSNum.lt] using hle
  exact le_of_mul_le_mul_right h2 h1

/-- C8 (as stated, refuted): `earlyRecord` has the dateAdded "1969-07-20" and
`undatedRecord` has none; loaded in this order and sorted by `date`, the
record without a date is rendered first, before the record that has one. -/
theorem date_sort_undated_first :
    earlyRecord.dateAdded = JSVal.str "1969-07-20".toList
    ∧ undatedRecord.dateAdded = JSVal.undefined
    ∧ dateOf asciiHost earlyRecord = some (-14256000000)
    ∧ dateOf asciiHost undatedRecord = some 0
    ∧ (applySortBy asciiHost "date".toList
        earlyLoaded).grid
        = renderGrid asciiHost [undatedRecord, earlyRecord] := by
  refine ⟨rfl, rfl, by decide!, by decide!, ?_⟩
  have hin : sortInput earlyLoaded
      = [earlyRecord, undatedRecord] := by decide
  have hgt : JSNum.lt (JSNum.fin 0) (dateCompare asciiHost earlyRecord undatedRecord) = true := by
    decide!
  rw [applySortBy_grid, hin, sortOutput_date_numbers asciiHost _ (by decide!)]
  simp only [arraySort, insertSorted, hgt, if_true]

/-- C8 (amended): when every dateAdded that is present in the list to sort
denotes a valid instant, the `date` sort renders a permutation of the list
ordered by instant, latest first, where a record without dateAdded counts as
the epoch 1970-01-01T00:00:00Z (time value 0); so no record rendered after a
record without dateAdded has an instant later than the epoch. -/
theorem date_sort_spec (h : Host) (st : State)
    (hvalid : ∀ v ∈ (if (st.read st.currentList).length ≠ 0 then st.read st.currentList
      else st.read st.vehicles), (dateOf h v).isSome = true) :
    (∀ v : Vehicle, v.dateAdded.truthy = false → dateOf h v = some 0)
    ∧ ∃ l : List Vehicle,
        l.Perm (if (st.read st.currentList).length ≠ 0 then st.read st.currentList
          else st.read st.vehicles)
        ∧ l.Pairwise (fun a b =>
            JSNum.le (dateToNumber (dateOf h b)) (dateToNumber (dateOf h a)) = true)
        ∧ l.Pairwise (fun a b => a.dateAdded.truthy = false →
            ∀ t : Int, dateOf h b = some t → t ≤ 0)
        ∧ (applySortBy h "date".toList st).grid = renderGrid h l := by
  have hsorted : (sortOutput h "date".toList (sortInput st)).Pairwise (fun a b =>
      JSNum.le (dateToNumber (dateOf h b)) (dateToNumber (dateOf h a)) = true) := by
    rw [sortOutput_date_numbers h (sortInput st) hvalid]
    exact arraySort_descending (fun v => dateToNumber (dateOf h v)) (sortInput st)
      (fun a ha => dateToNumber_not_nan _ (hvalid a ha))
  refine ⟨dateOf_missing h, sortOutput h "date".toList (sortInput st), sortOutput_perm _ _ _,
    hsorted, ?_, applySortBy_grid _ _ _⟩
  refine hsorted.imp ?_
  intro a b hle hmiss t ht
  rw [dateOf_missing h a hmiss, ht] at hle
  exact dateToNumber_le t 0 hle

/-- The `date` sort at the collection of `earlyRecord` and `undatedRecord`. -/
theorem date_sort_spec_witness :
    (∀ v ∈ (if (earlyLoaded.read earlyLoaded.currentList).length ≠ 0
        then earlyLoaded.read earlyLoaded.currentList
        else earlyLoaded.read earlyLoaded.vehicles), (dateOf asciiHost v).isSome = true)
    ∧ ∃ l : List Vehicle,
        l.Perm (if (earlyLoaded.read earlyLoaded.currentList).length ≠ 0
          then earlyLoaded.read earlyLoaded.currentList
          else earlyLoaded.read earlyLoaded.vehicles)
        ∧ l.Pairwise (fun a b =>
            JSNum.le (dateToNumber (dateOf asciiHost b)) (dateToNumber (dateOf asciiHost a))
              = true)
        ∧ l.Pairwise (fun a b => a.dateAdded.truthy = false →
            ∀ t : Int, dateOf asciiHost b = some t → t ≤ 0)
        ∧ (applySortBy asciiHost "date".toList earlyLoaded).grid = renderGrid asciiHost l :=
  ⟨by decide!, (date_sort_spec asciiHost earlyLoaded (by decide!)).2⟩

/-! ## Sorting after a search -/

theorem loadHandler_eq (h : Host) (data : List Vehicle) (st : State) :
    loadHandler h (some data) st =
      { heap := st.heap ++ [data] ++ [data], vehicles := st.heap.length,
        currentList := st.heap.length + 1, grid := renderGrid h data } := by
  have h1 : (st.heap ++ [data]).getD st.heap.length [] = data := by
    simp [List.getD_eq_getElem?_getD]
  have h2 : (st.heap ++ [data] ++ [data]).getD (st.heap.length + 1) [] = data := by
    have : st.heap.length + 1 = (st.heap ++ [data]).length := by simp
    rw [this]
    simp only [List.getD_eq_getElem?_getD, List.getElem?_concat_length, Option.getD_some]
  simp only [loadHandler, renderVehicles, State.alloc, State.read, h1, List.length_append,
    List.length_singleton, h2]

theorem loadHandler_reads (h : Host) (data : List Vehicle) (st : State) :
    (loadHandler h (some data) st).read (loadHandler h (some data) st).vehicles = data
    ∧ (loadHandler h (some data) st).read (loadHandler h (some data) st).currentList
        = data := by
  rw [loadHandler_eq]
  constructor
  · show (st.heap ++ [data] ++ [data]).getD st.heap.length [] = data
    rw [read_append_old (st.heap ++ [data]) data st.heap.length (by simp)]
    simp [List.getD_eq_getElem?_getD]
  · show (st.heap ++ [data] ++ [data]).getD (st.heap.length + 1) [] = data
    have : st.heap.length + 1 = (st.heap ++ [data]).length := by simp
    rw [this]
    simp only [List.getD_eq_getElem?_getD, List.getElem?_concat_length, Option.getD_some]

/-- C9 (as stated, refuted): on the loaded scenario collection the query with
make "zzz" leaves an empty working subset, and the `price` sort that follows
renders both records of the full collection, which is not the rendering of
any permutation of the empty working subset. -/
theorem sort_after_empty_search :
    (applySearch asciiHost (some { make := some "zzz".toList })
        (scenarioLoaded asciiHost)).read
      (applySearch asciiHost (some { make := some "zzz".toList })
        (scenarioLoaded asciiHost)).currentList = []
    ∧ (applySortBy asciiHost "price".toList
        (applySearch asciiHost (some { make := some "zzz".toList })
          (scenarioLoaded asciiHost))).grid
        = renderGrid asciiHost [scenarioSecond, scenarioFirst]
    ∧ ¬ ∃ l : List Vehicle,
        l.Perm ((applySearch asciiHost (some { make := some "zzz".toList })
            (scenarioLoaded asciiHost)).read
          (applySearch asciiHost (some { make := some "zzz".toList })
            (scenarioLoaded asciiHost)).currentList)
        ∧ (applySortBy asciiHost "price".toList
            (applySearch asciiHost (some { make := some "zzz".toList })
              (scenarioLoaded asciiHost))).grid = renderGrid asciiHost l := by
  have hsub : (applySearch asciiHost (some { make := some "zzz".toList })
        (scenarioLoaded asciiHost)).read
      (applySearch asciiHost (some { make := some "zzz".toList })
        (scenarioLoaded asciiHost)).currentList = [] := by
    rw [applySearch_currentList, scenarioLoaded_vehicles]
    decide
  have hin : sortInput (applySearch asciiHost (some { make := some "zzz".toList })
      (scenarioLoaded asciiHost)) = [scenarioFirst, scenarioSecond] := by
    rw [sortInput_eq, hsub]
    rfl
  have hgt : JSNum.lt (JSNum.fin 0) (priceCompare scenarioFirst scenarioSecond) = true := by
    decide!
  have hgrid : (applySortBy asciiHost "price".toList
      (applySearch asciiHost (some { make := some "zzz".toList })
        (scenarioLoaded asciiHost))).grid
      = renderGrid asciiHost [scenarioSecond, scenarioFirst] := by
    rw [applySortBy_grid, hin, sortOutput_price_numbers asciiHost _ (by decide!)]
    simp only [arraySort, insertSorted, hgt, if_true]
  refine ⟨hsub, hgrid, ?_⟩
  rintro ⟨l, hperm, hl⟩
  rw [hsub] at hperm
  have hnil : l = [] := List.Perm.eq_nil hperm
  rw [hgrid, hnil] at hl
  have hlen := congrArg List.length hl
  simp [renderGrid] at hlen

/-- C9 (amended): after a search submission, `applySortBy` with any key
renders a permutation of the working subset that search produced when that
subset is not empty, and a permutation of the full collection when it is
empty; after a load with no search it renders a permutation of the full
collection. -/
theorem sort_after_search (h : Host) (formData : FormData) (key : JSString)
    (data : List Vehicle) (st : State) :
    (∃ l : List Vehicle,
        l.Perm (if (applySearch h (some formData) st).read
              (applySearch h (some formData) st).currentList ≠ []
            then (applySearch h (some formData) st).read
              (applySearch h (some formData) st).currentList
            else (applySearch h (some formData) st).read
              (applySearch h (some formData) st).vehicles)
        ∧ (applySortBy h key (applySearch h (some formData) st)).grid = renderGrid h l)
    ∧ ∃ l : List Vehicle, l.Perm data
        ∧ (applySortBy h key (loadHandler h (some data) st)).grid = renderGrid h l := by
  constructor
  · refine ⟨sortOutput h key (sortInput (applySearch h (some formData) st)), ?_,
      applySortBy_grid _ _ _⟩
    refine (sortOutput_perm _ _ _).trans ?_
    rw [sortInput_eq]
    by_cases hne : (applySearch h (some formData) st).read
        (applySearch h (some formData) st).currentList = []
    · rw [hne]; simp
    · rw [if_pos hne, if_pos (by simpa using hne)]
  · refine ⟨sortOutput h key (sortInput (loadHandler h (some data) st)), ?_,
      applySortBy_grid _ _ _⟩
    refine (sortOutput_perm _ _ _).trans ?_
    have hv : (loadHandler h (some data) st).read (loadHandler h (some data) st).vehicles
        = data := (loadHandler_reads h data st).1
    have hc : (loadHandler h (some data) st).read (loadHandler h (some data) st).currentList
        = data := (loadHandler_reads h data st).2
    rw [sortInput_eq, hv, hc]
    split <;> exact List.Perm.refl _

/-! ## Stability -/

theorem JSNum.lt_zero_sub_self (k : JSNum) : JSNum.lt (JSNum.fin 0) (JSNum.sub k k) = false := by
  cases k with
  | nan => rfl
  | posInf => rfl
  | negInf => rfl
  | fin x =>
    show JSNum.lt (JSNum.fin 0) (JSNum.ofSteps (x - x)) = false
    rw [Bool.eq_false_iff, Ne, JSNum.lt_zero_ofSteps]
    omega

theorem insertSorted_filter {α : Type} (cmp : α → α → JSNum) (p : α → Bool) (x : α)
    (l : List α)
    (hp : ∀ y ∈ l, p x = true → p y = true → JSNum.lt (JSNum.fin 0) (cmp x y) = false) :
    (insertSorted cmp x l).filter p = (x :: l).filter p := by
  induction l with
  | nil => rfl
  | cons y ys ih =>
    have ih' := ih (fun z hz => hp z (List.mem_cons_of_mem _ hz))
    unfold insertSorted
    split
    · rename_i hgt
      by_cases hy : p y = true
      · have hx : ¬ p x = true := fun hx => by
          rw [hp y (List.mem_cons_self _ _) hx hy] at hgt
          exact absurd hgt (by simp)
        rw [List.filter_cons_of_pos hy, ih', List.filter_cons_of_neg hx,
          List.filter_cons_of_neg hx, List.filter_cons_of_pos hy]
      · rw [List.filter_cons_of_neg hy, ih']
        by_cases hx : p x = true
        · rw [List.filter_cons_of_pos hx, List.filter_cons_of_pos hx, List.filter_cons_of_neg hy]
        · rw [List.filter_cons_of_neg hx, List.filter_cons_of_neg hx, List.filter_cons_of_neg hy]
    · rfl

theorem arraySort_filter {α : Type} (cmp : α → α → JSNum) (p : α → Bool) (l : List α)
    (hp : ∀ x y : α, p x = true → p y = true → JSNum.lt (JSNum.fin 0) (cmp x y) = false) :
    (arraySort cmp l).filter p = l.filter p := by
  induction l with
  | nil => rfl
  | cons x xs ih =>
    show (insertSorted cmp x (arraySort cmp xs)).filter p = _
    rw [insertSorted_filter cmp p x _ (fun y _ => hp x y)]
    by_cases hx : p x = true
    · rw [List.filter_cons_of_pos hx, List.filter_cons_of_pos hx, ih]
    · rw [List.filter_cons_of_neg hx, List.filter_cons_of_neg hx, ih]

/-- C11 (as stated, refuted): `unstableInput` holds seven records with the
prices 1, 1, 3, 2, "unknown", 2, 2, whose keys are 1, 1, 3, 2, `NaN`, 2, 2.
Loaded and sorted by `price` on the host that sorts as V8 does, they are
rendered in the order 0, 1, 3, 6, 2, 4, 5: the records 5 and 6 have the same
numeric price 2 and record 6, which came after record 5, is rendered before
it. -/
theorem sort_unstable_with_nan_key :
    sortInput (loadHandler asciiHost (some unstableInput) initialState) = unstableInput
    ∧ (applySortBy asciiHost "price".toList
        (loadHandler asciiHost (some unstableInput) initialState)).grid
        = renderGrid asciiHost unstableRendered
    ∧ priceKey (pricedRecord 5 (JSVal.num (JSNum.ofNat 2)))
        = priceKey (pricedRecord 6 (JSVal.num (JSNum.ofNat 2)))
    ∧ priceKey (pricedRecord 4 (JSVal.str "unknown".toList)) = JSNum.nan
    ∧ unstableInput.filter (fun v => decide (priceKey v = JSNum.ofNat 2))
        = [pricedRecord 3 (JSVal.num (JSNum.ofNat 2)),
            pricedRecord 5 (JSVal.num (JSNum.ofNat 2)),
            pricedRecord 6 (JSVal.num (JSNum.ofNat 2))]
    ∧ unstableRendered.filter (fun v => decide (priceKey v = JSNum.ofNat 2))
        = [pricedRecord 3 (JSVal.num (JSNum.ofNat 2)),
            pricedRecord 6 (JSVal.num (JSNum.ofNat 2)),
            pricedRecord 5 (JSVal.num (JSNum.ofNat 2))] := by
  have hin : sortInput (loadHandler asciiHost (some unstableInput) initialState)
      = unstableInput := by
    rw [sortInput_eq, (loadHandler_reads asciiHost unstableInput initialState).1,
      (loadHandler_reads asciiHost unstableInput initialState).2]
    rfl
  have hout : sortOutput asciiHost "price".toList unstableInput = unstableRendered := by
    decide!
  refine ⟨hin, ?_, by decide!, by decide!, by decide!, by decide!⟩
  rw [applySortBy_grid, hin, hout]

/-- C11 (amended): for each of the keys `price`, `date` and `year`, when no
record of the list to sort has `NaN` as its key (every price, or year,
converts to a number or is falsy; every dateAdded that is present is a valid
date), the list that `applySortBy` renders holds the records of any one key
value in the order they have in the list it was given: records with equal
keys keep their relative order. -/
theorem sort_stable (h : Host) (st : State) :
    ((∀ v ∈ (if (st.read st.currentList).length ≠ 0 then st.read st.currentList
          else st.read st.vehicles), (priceKey v).isNaN = false) →
      ∃ l : List Vehicle, (applySortBy h "price".toList st).grid = renderGrid h l
        ∧ ∀ k : JSNum, l.filter (fun v => decide (priceKey v = k))
            = (if (st.read st.currentList).length ≠ 0 then st.read st.currentList
                else st.read st.vehicles).filter (fun v => decide (priceKey v = k)))
    ∧ ((∀ v ∈ (if (st.read st.currentList).length ≠ 0 then st.read st.currentList
          else st.read st.vehicles), (dateOf h v).isSome = true) →
      ∃ l : List Vehicle, (applySortBy h "date".toList st).grid = renderGrid h l
        ∧ ∀ t : Option Int, l.filter (fun v => decide (dateOf h v = t))
            = (if (st.read st.currentList).length ≠ 0 then st.read st.currentList
                else st.read st.vehicles).filter (fun v => decide (dateOf h v = t)))
    ∧ ((∀ v ∈ (if (st.read st.currentList).length ≠ 0 then st.read st.currentList
          else st.read st.vehicles), (yearKey v).isNaN = false) →
      ∃ l : List Vehicle, (applySortBy h "year".toList st).grid = renderGrid h l
        ∧ ∀ k : JSNum, l.filter (fun v => decide (yearKey v = k))
            = (if (st.read st.currentList).length ≠ 0 then st.read st.currentList
                else st.read st.vehicles).filter (fun v => decide (yearKey v = k))) := by
  refine ⟨fun hkey => ⟨_, applySortBy_grid h _ st, ?_⟩,
    fun hkey => ⟨_, applySortBy_grid h _ st, ?_⟩,
    fun hkey => ⟨_, applySortBy_grid h _ st, ?_⟩⟩
  · intro k
    rw [sortOutput_price_numbers h (sortInput st) hkey, ← sortInput_eq]
    refine arraySort_filter _ _ _ ?_
    intro x y hx hy
    have hx' : priceKey x = k := by simpa using hx
    have hy' : priceKey y = k := by simpa using hy
    show JSNum.lt (JSNum.fin 0) (JSNum.sub (priceKey x) (priceKey y)) = false
    rw [hx', hy']
    exact JSNum.lt_zero_sub_self k
  · intro t
    rw [sortOutput_date_numbers h (sortInput st) hkey, ← sortInput_eq]
    refine arraySort_filter _ _ _ ?_
    intro x y hx hy
    have hx' : dateOf h x = t := by simpa using hx
    have hy' : dateOf h y = t := by simpa using hy
    show JSNum.lt (JSNum.fin 0)
      (JSNum.sub (dateToNumber (dateOf h y)) (dateToNumber (dateOf h x))) = false
    rw [hx', hy']
    exact JSNum.lt_zero_sub_self _
  · intro k
    rw [sortOutput_year_numbers h (sortInput st) hkey, ← sortInput_eq]
    refine arraySort_filter _ _ _ ?_
    intro x y hx hy
    have hx' : yearKey x = k := by simpa using hx
    have hy' : yearKey y = k := by simpa using hy
    show JSNum.lt (JSNum.fin 0) (JSNum.sub (yearKey y) (yearKey x)) = false
    rw [hx', hy']
    exact JSNum.lt_zero_sub_self k

/-- The stability of the `price` sort at the loaded scenario collection. -/
theorem sort_stable_witness :
    (∀ v ∈ (if ((scenarioLoaded asciiHost).read (scenarioLoaded asciiHost).currentList).length ≠ 0
        then (scenarioLoaded asciiHost).read (scenarioLoaded asciiHost).currentList
        else (scenarioLoaded asciiHost).read (scenarioLoaded asciiHost).vehicles),
        (priceKey v).isNaN = false)
    ∧ ∃ l : List Vehicle,
        (applySortBy asciiHost "price".toList (scenarioLoaded asciiHost)).grid
          = renderGrid asciiHost l
        ∧ ∀ k : JSNum, l.filter (fun v => decide (priceKey v = k))
            = (if ((scenarioLoaded asciiHost).read
                  (scenarioLoaded asciiHost).currentList).length ≠ 0
                then (scenarioLoaded asciiHost).read (scenarioLoaded asciiHost).currentList
                else (scenarioLoaded asciiHost).read (scenarioLoaded asciiHost).vehicles).filter
              (fun v => decide (priceKey v = k)) :=
  ⟨by decide!, (sort_stable asciiHost (scenarioLoaded asciiHost)).1 (by decide!)⟩

/-! ## Sorting twice -/

theorem JSNum.lt_asymm_num (a b : JSNum) (hab : JSNum.lt a b = true) : JSNum.lt b a = false := by
  cases a <;> cases b <;> simp_all [JSNum.lt]
  omega

theorem JSNum.sub_antisymm (a b : JSNum)
    (hab : JSNum.lt (JSNum.fin 0) (JSNum.sub a b) = true) :
    JSNum.lt (JSNum.fin 0) (JSNum.sub b a) = false := by
  have ha : a.isNaN = false := by
    cases a with
    | nan => simp [JSNum.sub, JSNum.lt] at hab
    | posInf => rfl
    | negInf => rfl
    | fin k => rfl
  have hb : b.isNaN = false := by
    cases b with
    | nan => cases a <;> simp [JSNum.sub, JSNum.lt] at hab
    | posInf => rfl
    | negInf => rfl
    | fin k => rfl
  have h1 : JSNum.lt b a = true := (JSNum.lt_zero_sub a b ha hb).1 hab
  have h2 : JSNum.lt a b = false := JSNum.lt_asymm_num b a h1
  rw [Bool.eq_false_iff]
  intro h3
  rw [(JSNum.lt_zero_sub b a hb ha).1 h3] at h2
  exact absurd h2 (by simp)

theorem insertSorted_head {α : Type} (cmp : α → α → JSNum) (x : α) (l : List α) :
    ∀ z ∈ (insertSorted cmp x l).head?, z = x ∨ z ∈ l.head? := by
  intro z hz
  cases l with
  | nil =>
    left
    simpa [insertSorted] using hz.symm
  | cons y ys =>
    unfold insertSorted at hz
    split at hz
    · right; simpa using hz
    · left; simpa using hz.symm

theorem insertSorted_chain {α : Type} (cmp : α → α → JSNum) (x : α) (l : List α)
    (hanti : ∀ a b : α, JSNum.lt (JSNum.fin 0) (cmp a b) = true →
      JSNum.lt (JSNum.fin 0) (cmp b a) = false)
    (hl : l.Chain' (fun a b => JSNum.lt (JSNum.fin 0) (cmp a b) = false)) :
    (insertSorted cmp x l).Chain' (fun a b => JSNum.lt (JSNum.fin 0) (cmp a b) = false) := by
  induction l with
  | nil => simp [insertSorted]
  | cons y ys ih =>
    unfold insertSorted
    split
    · rename_i hgt
      refine (ih hl.tail).cons' ?_
      intro z hz
      rcases insertSorted_head cmp x ys z hz with hzx | hzy
      · rw [hzx]; exact hanti x y hgt
      · exact hl.rel_head? hzy
    · rename_i hgt
      exact hl.cons (by simpa using hgt)

theorem arraySort_chain {α : Type} (cmp : α → α → JSNum) (l : List α)
    (hanti : ∀ a b : α, JSNum.lt (JSNum.fin 0) (cmp a b) = true →
      JSNum.lt (JSNum.fin 0) (cmp b a) = false) :
    (arraySort cmp l).Chain' (fun a b => JSNum.lt (JSNum.fin 0) (cmp a b) = false) := by
  induction l with
  | nil => exact List.chain'_nil
  | cons x xs ih => exact insertSorted_chain cmp x _ hanti ih

theorem arraySort_of_chain {α : Type} (cmp : α → α → JSNum) (l : List α)
    (hl : l.Chain' (fun a b => JSNum.lt (JSNum.fin 0) (cmp a b) = false)) :
    arraySort cmp l = l := by
  induction l with
  | nil => rfl
  | cons x xs ih =>
    show insertSorted cmp x (arraySort cmp xs) = x :: xs
    rw [ih hl.tail]
    cases xs with
    | nil => rfl
    | cons y ys =>
      have hxy : JSNum.lt (JSNum.fin 0) (cmp x y) = false := (List.chain'_cons.1 hl).1
      simp [insertSorted, hxy]

theorem arraySort_idem {α : Type} (cmp : α → α → JSNum) (l : List α)
    (hanti : ∀ a b : α, JSNum.lt (JSNum.fin 0) (cmp a b) = true →
      JSNum.lt (JSNum.fin 0) (cmp b a) = false) :
    arraySort cmp (arraySort cmp l) = arraySort cmp l :=
  arraySort_of_chain cmp _ (arraySort_chain cmp l hanti)

theorem sortOutput_idem_numbers (h : Host) (key : JSString) (l : List Vehicle)
    (hk : keysAreNumbers h key l) :
    sortOutput h key (sortOutput h key l) = sortOutput h key l := by
  unfold keysAreNumbers at hk
  by_cases h1 : key = "price".toList
  · subst h1
    rw [if_pos rfl] at hk
    have hk' : ∀ v ∈ arraySort priceCompare l, (priceKey v).isNaN = false :=
      fun v hv => hk v ((arraySort_perm _ l).subset hv)
    rw [sortOutput_price_numbers h l hk, sortOutput_price_numbers h _ hk']
    exact arraySort_idem _ _ (fun a b => JSNum.sub_antisymm _ _)
  · by_cases h2 : key = "date".toList
    · subst h2
      rw [if_neg (by decide), if_pos rfl] at hk
      have hk' : ∀ v ∈ arraySort (dateCompare h) l, (dateOf h v).isSome = true :=
        fun v hv => hk v ((arraySort_perm _ l).subset hv)
      rw [sortOutput_date_numbers h l hk, sortOutput_date_numbers h _ hk']
      exact arraySort_idem _ _ (fun a b => JSNum.sub_antisymm _ _)
    · by_cases h3 : key = "year".toList
      · subst h3
        rw [if_neg (by decide), if_neg (by decide), if_pos rfl] at hk
        have hk' : ∀ v ∈ arraySort yearCompare l, (yearKey v).isNaN = false :=
          fun v hv => hk v ((arraySort_perm _ l).subset hv)
        rw [sortOutput_year_numbers h l hk, sortOutput_year_numbers h _ hk']
        exact arraySort_idem _ _ (fun a b => JSNum.sub_antisymm _ _)
      · unfold sortOutput
        rw [if_neg h1, if_neg h2, if_neg h3, if_neg h1, if_neg h2, if_neg h3]

theorem applySortBy_sortInput (h : Host) (key : JSString) (st : State)
    (hwf : st.WellFormed) : sortInput (applySortBy h key st) = sortInput st := by
  have hv : (applySortBy h key st).read (applySortBy h key st).vehicles
      = st.read st.vehicles := by
    rw [applySortBy_eq]
    exact read_append_old _ _ _ hwf.1
  have hc : (applySortBy h key st).read (applySortBy h key st).currentList
      = st.read st.currentList := by
    rw [applySortBy_eq]
    exact read_append_old _ _ _ hwf.2
  rw [sortInput_eq, sortInput_eq, hv, hc]

/-- C12 (as stated, refuted): `twiceInput` holds five records with the prices
"unknown", 2, "unknown", 1, 1, whose keys are `NaN`, 2, `NaN`, 1, 1.  On the
host that sorts by a stable bottom-up merge sort, the `price` sort gives the
order 0, 4, 1, 2, 3, and the `price` sort of that gives the order
0, 4, 3, 1, 2: sorting the sorter's output again changes it. -/
theorem sort_twice_differs :
    sortOutput mergeHost "price".toList twiceInput = twiceOnce
    ∧ sortOutput mergeHost "price".toList twiceOnce = twiceAgain
    ∧ twiceOnce ≠ twiceAgain
    ∧ (applySortBy mergeHost "price".toList
        (loadHandler mergeHost (some twiceInput) initialState)).grid
        = renderGrid mergeHost twiceOnce
    ∧ (applySortBy mergeHost "price".toList
        (loadHandler mergeHost (some twiceOnce) initialState)).grid
        = renderGrid mergeHost twiceAgain := by
  have h1 : sortOutput mergeHost "price".toList twiceInput = twiceOnce := by decide!
  have h2 : sortOutput mergeHost "price".toList twiceOnce = twiceAgain := by decide!
  have hin : ∀ l : List Vehicle, l ≠ [] →
      sortInput (loadHandler mergeHost (some l) initialState) = l := by
    intro l hl
    rw [sortInput_eq, (loadHandler_reads mergeHost l initialState).1,
      (loadHandler_reads mergeHost l initialState).2]
    simp
  refine ⟨h1, h2, by decide!, ?_, ?_⟩
  · rw [applySortBy_grid, hin _ (by decide), h1]
  · rw [applySortBy_grid, hin _ (by decide), h2]

/-- C12 (amended): when no record of the list `l` has `NaN` as its key for
the sort key (every price, or year, converts to a number or is falsy, every
dateAdded that is present is a valid date; a key that is empty or not
recognised asks nothing), the list the sorter produces from `l` is left as
it is by the sorter with the same key: `sort(k, sort(k, l)) = sort(k, l)`,
where `sort(k, l)` is the list `applySortBy` renders when it starts from
`l`.  And whatever the records are, `applySortBy` applied twice in succession
renders what it renders applied once. -/
theorem sort_idempotent (h : Host) (key : JSString) (l : List Vehicle) (st : State)
    (hkeys : keysAreNumbers h key l) (hwf : st.WellFormed) :
    sortOutput h key (sortOutput h key l) = sortOutput h key l
    ∧ (applySortBy h key st).grid
        = renderGrid h (sortOutput h key
            (if (st.read st.currentList).length ≠ 0 then st.read st.currentList
              else st.read st.vehicles))
    ∧ (∀ st2 : State,
        (if (st2.read st2.currentList).length ≠ 0 then st2.read st2.currentList
          else st2.read st2.vehicles) = sortOutput h key l →
        (applySortBy h key st2).grid = renderGrid h (sortOutput h key l))
    ∧ (applySortBy h key (applySortBy h key st)).grid = (applySortBy h key st).grid := by
  refine ⟨sortOutput_idem_numbers h key l hkeys, applySortBy_grid h key st, ?_, ?_⟩
  · intro st2 h2
    rw [applySortBy_grid, sortInput_eq, h2, sortOutput_idem_numbers h key l hkeys]
  · rw [applySortBy_grid, applySortBy_sortInput h key st hwf, applySortBy_grid]

/-- The idempotence of the `price` sort at the loaded scenario collection. -/
theorem sort_idempotent_witness :
    keysAreNumbers asciiHost "price".toList [scenarioFirst, scenarioSecond]
    ∧ (scenarioLoaded asciiHost).WellFormed
    ∧ sortOutput asciiHost "price".toList
        (sortOutput asciiHost "price".toList [scenarioFirst, scenarioSecond])
        = sortOutput asciiHost "price".toList [scenarioFirst, scenarioSecond]
    ∧ (applySortBy asciiHost "price".toList
        (applySortBy asciiHost "price".toList (scenarioLoaded asciiHost))).grid
        = (applySortBy asciiHost "price".toList (scenarioLoaded asciiHost)).grid :=
  ⟨by unfold keysAreNumbers; decide!, by decide,
    (sort_idempotent asciiHost "price".toList [scenarioFirst, scenarioSecond]
      (scenarioLoaded asciiHost) (by unfold keysAreNumbers; decide!) (by decide)).1,
    (sort_idempotent asciiHost "price".toList [scenarioFirst, scenarioSecond]
      (scenarioLoaded asciiHost) (by unfold keysAreNumbers; decide!) (by decide)).2.2.2⟩

/-! ## Pass-through keys -/

/-- C13: for a sort key that is empty or is none of "price", "date" and
"year", `applySortBy` renders the list it starts from (the working subset if
it is not empty, else the full collection) with the same elements in the same
order; the script has no error path here, it produces the rendered state. -/
theorem sort_pass_through (h : Host) (key : JSString) (st : State)
    (hkey : key = [] ∨
      (key ≠ "price".toList ∧ key ≠ "date".toList ∧ key ≠ "year".toList)) :
    (applySortBy h key st).grid
        = renderGrid h (if (st.read st.currentList).length ≠ 0 then st.read st.currentList
            else st.read st.vehicles)
    ∧ (applySortBy h key st).vehicles = st.vehicles
    ∧ (applySortBy h key st).currentList = st.currentList := by
  have hout : sortOutput h key (sortInput st) = sortInput st := by
    unfold sortOutput
    rcases hkey with hk | ⟨h1, h2, h3⟩
    · subst hk
      rw [if_neg (by decide), if_neg (by decide), if_neg (by decide)]
    · rw [if_neg h1, if_neg h2, if_neg h3]
  refine ⟨?_, ?_, ?_⟩
  · rw [applySortBy_grid, hout, sortInput_eq]
  · rw [applySortBy_eq]
  · rw [applySortBy_eq]

/-- The pass-through at the loaded scenario collection with the key
"mileage". -/
theorem sort_pass_through_witness :
    ("mileage".toList = [] ∨ ("mileage".toList ≠ "price".toList
        ∧ "mileage".toList ≠ "date".toList ∧ "mileage".toList ≠ "year".toList))
    ∧ (applySortBy asciiHost "mileage".toList (scenarioLoaded asciiHost)).grid
        = renderGrid asciiHost
            (if ((scenarioLoaded asciiHost).read (scenarioLoaded asciiHost).currentList).length
                ≠ 0
              then (scenarioLoaded asciiHost).read (scenarioLoaded asciiHost).currentList
              else (scenarioLoaded asciiHost).read (scenarioLoaded asciiHost).vehicles) :=
  ⟨by decide,
    (sort_pass_through asciiHost "mileage".toList (scenarioLoaded asciiHost) (by decide)).1⟩

/-! ## Empty query -/

theorem trim_blank (field : Option JSString) (hb : isBlank field) :
    trim (orEmpty field) = [] := by
  cases field with
  | none => rfl
  | some s =>
    unfold trim orEmpty
    simp only
    rw [dropWhile_all_ws s hb]
    rfl

theorem matcher_blank (h : Host) (formData : FormData) (v : Vehicle)
    (hmake : isBlank formData.make) (hmodel : isBlank formData.model)
    (hyear : isBlank formData.year) (hengine : isBlank formData.enginesize) :
    matcher h formData v = true := by
  unfold matcher queryText
  rw [trim_blank _ hmake, trim_blank _ hmodel, trim_blank _ hyear, trim_blank _ hengine,
    h.toLowerCase_nil]
  simp [searchCallback, okText, okYear, okEngine]

/-- C14: when each of the four fields of the query is empty, white space only
or absent, the working subset after `applySearch` is the full source
collection in the same order. -/
theorem empty_query_keeps_all (h : Host) (formData : FormData) (st : State)
    (hmake : isBlank formData.make) (hmodel : isBlank formData.model)
    (hyear : isBlank formData.year) (hengine : isBlank formData.enginesize) :
    (applySearch h (some formData) st).read (applySearch h (some formData) st).currentList
      = st.read st.vehicles := by
  rw [applySearch_currentList]
  exact List.filter_eq_self.2 (fun v _ => matcher_blank h formData v hmake hmodel hyear hengine)

/-- The empty query, with a make of two spaces, at the loaded scenario
collection. -/
theorem empty_query_keeps_all_witness :
    isBlank (some "  ".toList) ∧ isBlank none
    ∧ (applySearch asciiHost (some { make := some "  ".toList })
          (scenarioLoaded asciiHost)).read
        (applySearch asciiHost (some { make := some "  ".toList })
          (scenarioLoaded asciiHost)).currentList
      = (scenarioLoaded asciiHost).read (scenarioLoaded asciiHost).vehicles :=
  ⟨by unfold isBlank; decide, trivial,
    empty_query_keeps_all asciiHost { make := some "  ".toList } (scenarioLoaded asciiHost)
      (by unfold isBlank; decide) trivial trivial trivial⟩

/-! ## Keys that do not convert to a number -/

/-- C15 (failing input): for `unpricedRecord`, whose price is the text
"call us" and whose year is the text "unknown", the operand of the `price`
comparator and that of the `year` comparator are `NaN`, not 0 as for the
record without price and year, and the comparators return `NaN` against the
first record of the scenario, in either order. -/
theorem comparator_nan_on_text :
    priceKey unpricedRecord = JSNum.nan
    ∧ yearKey unpricedRecord = JSNum.nan
    ∧ priceKey undatedRecord = JSNum.fin 0
    ∧ yearKey undatedRecord = JSNum.fin 0
    ∧ priceCompare unpricedRecord scenarioFirst = JSNum.nan
    ∧ priceCompare scenarioFirst unpricedRecord = JSNum.nan
    ∧ yearCompare unpricedRecord scenarioFirst = JSNum.nan
    ∧ yearCompare scenarioFirst unpricedRecord = JSNum.nan := by
  refine ⟨by decide!, by decide!, by decide!, by decide!, by decide!, by decide!, by decide!,
    by decide!⟩

/-! ## Missing engine size -/

theorem matcher_engine_missing (h : Host) (formData : FormData) (v : Vehicle)
    (hve : v.engineSize.isNullish = true)
    (hq : trim (orEmpty formData.enginesize) ≠ []) : matcher h formData v = false := by
  have hemp : (trim (orEmpty formData.enginesize)).isEmpty = false := by
    cases ht : trim (orEmpty formData.enginesize) with
    | nil => exact absurd ht hq
    | cons _ _ => rfl
  have hok : okEngine h (trim (orEmpty formData.enginesize))
      (engineQuery (trim (orEmpty formData.enginesize))) v.engineSize = false := by
    simp [okEngine, hemp, hve]
  unfold matcher searchCallback
  rw [hok, Bool.and_false]

/-- C16: for a record whose engineSize is `null` or missing, `formatEngine`
returns the empty label, and with an engine-size query that is non-empty
after trimming the filter callback returns false on the record, whatever its
other fields and the other query fields are, so the record is not in the
working subset the search leaves. -/
theorem missing_engine_size (h : Host) (formData : FormData) (v : Vehicle) (st : State)
    (hve : v.engineSize.isNullish = true)
    (hq : trim (orEmpty formData.enginesize) ≠ []) :
    formatEngine v.engineSize = JSVal.str []
    ∧ matcher h formData v = false
    ∧ v ∉ (applySearch h (some formData) st).read
        (applySearch h (some formData) st).currentList := by
  refine ⟨?_, matcher_engine_missing h formData v hve hq, ?_⟩
  · unfold formatEngine
    rw [if_pos hve]
  · rw [applySearch_currentList]
    intro hmem
    have hm := (List.mem_filter.1 hmem).2
    rw [matcher_engine_missing h formData v hve hq] at hm
    exact absurd hm (by simp)

/-- The record without engine size under the engine query "1800", at the
collection that holds it. -/
theorem missing_engine_size_witness :
    undatedRecord.engineSize.isNullish = true
    ∧ trim (orEmpty (some "1800".toList)) ≠ []
    ∧ undatedRecord ∉ (applySearch asciiHost (some { enginesize := some "1800".toList })
          earlyLoaded).read
        (applySearch asciiHost (some { enginesize := some "1800".toList })
          earlyLoaded).currentList :=
  ⟨rfl, by decide,
    (missing_engine_size asciiHost { enginesize := some "1800".toList } undatedRecord
      earlyLoaded rfl (by decide)).2.2⟩

/-! ## Engine label -/

/-- C17: `formatEngine` gives the text of the number followed by "cc" for a
number that is `>= 100`, the text of the number followed by "L" for a number
that is `< 100`, and a text as it is; 1800 gives "1800cc" and 1.8 gives
"1.8L". -/
theorem formatEngine_spec (x : JSNum) (s : JSString) :
    (JSNum.ge x (JSNum.ofNat 100) = true →
      formatEngine (JSVal.num x) = JSVal.str (x.toString ++ "cc".toList))
    ∧ (JSNum.lt x (JSNum.ofNat 100) = true →
      formatEngine (JSVal.num x) = JSVal.str (x.toString ++ "L".toList))
    ∧ formatEngine (JSVal.str s) = JSVal.str s
    ∧ formatEngine (JSVal.num (JSNum.ofNat 1800)) = JSVal.str "1800cc".toList
    ∧ formatEngine (JSVal.num (JSNum.ofDecimal false 18 (-1))) = JSVal.str "1.8L".toList := by
  refine ⟨?_, ?_, rfl, by decide!, by decide!⟩
  · intro hge
    simp only [formatEngine, JSVal.isNullish, Bool.false_eq_true, if_false, hge, if_true]
  · intro hlt
    have hge : JSNum.ge x (JSNum.ofNat 100) = false := by
      simp [JSNum.ge, hlt]
    simp only [formatEngine, JSVal.isNullish, Bool.false_eq_true, if_false, hge]

/-! ## Rendering -/

/-- C18: `renderVehicles` on an empty array leaves exactly one child in the
grid, the "No vehicles found." placeholder; on an array of `n > 0` records it
leaves exactly `n` cards, one per record in the order of the array, and no
placeholder; and loading an empty source collection leaves exactly the
placeholder. -/
theorem renderVehicles_spec (h : Host) (r : Nat) (st st0 : State) :
    (st.read r = [] →
      (renderVehicles h r st).grid =
        [GridNode.html
          "<div class=\"col-12 text-center text-muted\">No vehicles found.</div>".toList])
    ∧ (st.read r ≠ [] →
      (renderVehicles h r st).grid
          = (st.read r).map (fun v => GridNode.col "col-md-4 mb-4".toList (cardMarkup h v))
        ∧ (renderVehicles h r st).grid.length = (st.read r).length
        ∧ ∀ markup : JSString, GridNode.html markup ∉ (renderVehicles h r st).grid)
    ∧ (loadHandler h (some []) st0).grid =
        [GridNode.html
          "<div class=\"col-12 text-center text-muted\">No vehicles found.</div>".toList] := by
  refine ⟨?_, ?_, ?_⟩
  · intro hnil
    simp [renderVehicles, renderGrid, hnil]
  · intro hne
    have hlen : ¬ (st.read r).length = 0 := fun hl => hne (List.length_eq_zero.1 hl)
    have hgrid : (renderVehicles h r st).grid
        = (st.read r).map (fun v => GridNode.col "col-md-4 mb-4".toList (cardMarkup h v)) := by
      simp [renderVehicles, renderGrid, hlen]
    refine ⟨hgrid, ?_, ?_⟩
    · rw [hgrid, List.length_map]
    · intro markup hmem
      rw [hgrid] at hmem
      obtain ⟨v, _, hv⟩ := List.mem_map.1 hmem
      exact GridNode.noConfusion hv
  · rw [loadHandler_eq]
    simp [renderGrid]

/-! ## Reachable states -/

theorem reachable_invariant (h : Host) (st : State) (hr : Reachable h st) :
    st.WellFormed ∧ (st.read st.currentList).Sublist (st.read st.vehicles) := by
  induction hr with
  | load data st0 =>
    have hreads := loadHandler_reads h data st0
    refine ⟨?_, ?_⟩
    · rw [loadHandler_eq]
      constructor
      · show st0.heap.length < (st0.heap ++ [data] ++ [data]).length
        simp
      · show st0.heap.length + 1 < (st0.heap ++ [data] ++ [data]).length
        simp
    · rw [hreads.1, hreads.2]
  | search searchForm st0 _ ih =>
    obtain ⟨⟨hv, hc⟩, hsub⟩ := ih
    cases searchForm with
    | none => exact ⟨⟨hv, hc⟩, hsub⟩
    | some formData =>
      have hcur := applySearch_currentList h formData st0
      have hveh : (applySearch h (some formData) st0).read
          (applySearch h (some formData) st0).vehicles = st0.read st0.vehicles := by
        rw [applySearch_eq]
        exact read_append_old _ _ _ hv
      refine ⟨?_, ?_⟩
      · rw [applySearch_eq]
        constructor
        · show st0.vehicles < (st0.heap ++ [_]).length
          simp; omega
        · show st0.heap.length < (st0.heap ++ [_]).length
          simp
      · rw [hcur, hveh]
        exact List.filter_sublist _
  | sort key st0 _ ih =>
    obtain ⟨⟨hv, hc⟩, hsub⟩ := ih
    have hveh : (applySortBy h key st0).read (applySortBy h key st0).vehicles
        = st0.read st0.vehicles := by
      rw [applySortBy_eq]
      exact read_append_old _ _ _ hv
    have hcur : (applySortBy h key st0).read (applySortBy h key st0).currentList
        = st0.read st0.currentList := by
      rw [applySortBy_eq]
      exact read_append_old _ _ _ hc
    refine ⟨?_, ?_⟩
    · rw [applySortBy_eq]
      constructor
      · show st0.vehicles < (st0.heap ++ [_]).length
        simp; omega
      · show st0.currentList < (st0.heap ++ [_]).length
        simp; omega
    · rw [hveh, hcur]
      exact hsub

/-- C19: in every state reached from a successful load by search submissions
and sort changes, the working subset is a subsequence of the source
collection: its records are records of the source, each at most as often as
in the source, in the relative order of the source. -/
theorem working_subset_is_subsequence (h : Host) (st : State) (hr : Reachable h st) :
    (st.read st.currentList).Sublist (st.read st.vehicles)
    ∧ (∀ v, v ∈ st.read st.currentList → v ∈ st.read st.vehicles)
    ∧ (∀ v, (st.read st.currentList).count v ≤ (st.read st.vehicles).count v) := by
  have hsub := (reachable_invariant h st hr).2
  exact ⟨hsub, fun v hv => hsub.subset hv, fun v => hsub.count_le v⟩

/-- The invariant at the scenario collection after the query with make
"toyota" and the `price` sort. -/
theorem working_subset_is_subsequence_witness :
    Reachable asciiHost
      (applySortBy asciiHost "price".toList
        (applySearch asciiHost (some { make := some "toyota".toList })
          (scenarioLoaded asciiHost)))
    ∧ ((applySortBy asciiHost "price".toList
          (applySearch asciiHost (some { make := some "toyota".toList })
            (scenarioLoaded asciiHost))).read
        (applySortBy asciiHost "price".toList
          (applySearch asciiHost (some { make := some "toyota".toList })
            (scenarioLoaded asciiHost))).currentList).Sublist
      ((applySortBy asciiHost "price".toList
          (applySearch asciiHost (some { make := some "toyota".toList })
            (scenarioLoaded asciiHost))).read
        (applySortBy asciiHost "price".toList
          (applySearch asciiHost (some { make := some "toyota".toList })
            (scenarioLoaded asciiHost))).vehicles) :=
  ⟨Reachable.sort _ _ (Reachable.search _ _ (Reachable.load _ _)),
    (working_subset_is_subsequence asciiHost _
      (Reachable.sort _ _ (Reachable.search _ _ (Reachable.load _ _)))).1⟩

/-! ## Escaping in one pass -/

/-- C20: on a text, `escapeHtml` (five successive global replacements, `&`
first) equals the single-pass substitution character by character; hence it
distributes over concatenation, and an entity produced by one replacement is
not escaped again by a later one: each reserved character alone gives its
entity, and "a<b&c" gives "a&lt;b&amp;c". -/
theorem escapeHtml_single_pass (a b : JSString) :
    escapeHtml (JSVal.str a) = escapeSinglePass a
    ∧ escapeHtml (JSVal.str (a ++ b)) = escapeHtml (JSVal.str a) ++ escapeHtml (JSVal.str b)
    ∧ escapeHtml (JSVal.str "&".toList) = "&amp;".toList
    ∧ escapeHtml (JSVal.str "<".toList) = "&lt;".toList
    ∧ escapeHtml (JSVal.str ">".toList) = "&gt;".toList
    ∧ escapeHtml (JSVal.str "\"".toList) = "&quot;".toList
    ∧ escapeHtml (JSVal.str "'".toList) = "&#039;".toList
    ∧ escapeHtml (JSVal.str "a<b&c".toList) = "a&lt;b&amp;c".toList := by
  have hstr : ∀ s : JSString, escapeHtml (JSVal.str s) = s.flatMap escapeChar := by
    intro s
    rw [escapeHtml_eq]
    rfl
  refine ⟨hstr a, ?_, by decide, by decide, by decide, by decide, by decide, by decide⟩
  rw [hstr, hstr, hstr, List.flatMap_append]

end VirtualMart
